import Mathlib

/-!
Verification of the order-matching-engine core (`order_book.py`,
`matching_engine.py`) against its natural-language specification.

Modelling conventions:
* Python `int` quantities are `Int`; prices are held as `Int` (the spec
  treats price comparison and equality as exact, and the matching code
  only compares and copies prices).
* `datetime.utcnow()` acceptance timestamps are modelled by a `Nat`
  drawn from a monotonic engine clock, so each created `OrderNode`
  carries a fresh timestamp; the timestamp doubles as the identity of
  the Python object, which lets the model express Python's aliasing
  (one `OrderNode` object shared between a heap and `orders_by_id`):
  mutating a node is modelled by `bookUpdTs`, which rewrites every
  holder of that timestamp.
* `heapq` heaps are modelled as lists kept sorted by the node order of
  `OrderNode.__lt__` (`List.orderedInsert` on push, head access and
  `tail` on pop).  Only `heap[0]`, `heappop` and emptiness are ever
  observed by the code, and under the strict total order given by
  distinct timestamps these observations agree with any binary-heap
  layout.
* The database session of `_execute_trade` is abstracted to an oracle
  `List Bool` prescribing the outcome of each successive commit
  (`true` = commit succeeds, `false` = commit raises and the session is
  rolled back, so `_execute_trade` returns `None`); an exhausted oracle
  means every later commit succeeds.
-/

inductive OrderSide where
  | BUY : OrderSide
  | SELL : OrderSide
deriving DecidableEq

/-- `OrderNode` from `order_book.py` (lines 12-22). -/
structure OrderNode where
  order_id : String
  user_id : String
  symbol : String
  side : OrderSide
  quantity : Int
  price : Int
  timestamp : Nat
  filled_quantity : Int
deriving DecidableEq

/-- `OrderNode.remaining_quantity` (`order_book.py` line 36-38). -/
def OrderNode.remaining_quantity (o : OrderNode) : Int :=
  o.quantity - o.filled_quantity

/-- `OrderNode.is_filled` (`order_book.py` line 40-41). -/
def OrderNode.is_filled (o : OrderNode) : Bool :=
  decide (o.remaining_quantity ≤ 0)

/-- `OrderNode.__lt__` for two BUY nodes: higher price first, then
earlier timestamp (`order_book.py` lines 27-30).  Stated as the
non-strict total order under which the buy heap's pop sequence is
sorted. -/
def buyLE (a b : OrderNode) : Prop :=
  b.price < a.price ∨ (a.price = b.price ∧ a.timestamp ≤ b.timestamp)

/-- `OrderNode.__lt__` for two SELL nodes: lower price first, then
earlier timestamp (`order_book.py` lines 31-34), as a non-strict total
order. -/
def sellLE (a b : OrderNode) : Prop :=
  a.price < b.price ∨ (a.price = b.price ∧ a.timestamp ≤ b.timestamp)

/-- Strict version of the buy-heap priority order. -/
def buyLT (a b : OrderNode) : Prop :=
  b.price < a.price ∨ (a.price = b.price ∧ a.timestamp < b.timestamp)

/-- Strict version of the sell-heap priority order. -/
def sellLT (a b : OrderNode) : Prop :=
  a.price < b.price ∨ (a.price = b.price ∧ a.timestamp < b.timestamp)

instance decBuyLE : DecidableRel buyLE := fun a b => by
  unfold buyLE; infer_instance

instance decSellLE : DecidableRel sellLE := fun a b => by
  unfold sellLE; infer_instance

instance decBuyLT : DecidableRel buyLT := fun a b => by
  unfold buyLT; infer_instance

instance decSellLT : DecidableRel sellLT := fun a b => by
  unfold sellLT; infer_instance

instance totalBuyLE : IsTotal OrderNode buyLE := by
  constructor; intro a b; unfold buyLE; omega

instance transBuyLE : IsTrans OrderNode buyLE := by
  constructor; intro a b c; unfold buyLE; omega

instance totalSellLE : IsTotal OrderNode sellLE := by
  constructor; intro a b; unfold sellLE; omega

instance transSellLE : IsTrans OrderNode sellLE := by
  constructor; intro a b c; unfold sellLE; omega

/-- `heapq.heappush` on a buy heap, on the sorted-list model. -/
def heappushBuy (h : List OrderNode) (o : OrderNode) : List OrderNode :=
  h.orderedInsert buyLE o

/-- `heapq.heappush` on a sell heap, on the sorted-list model. -/
def heappushSell (h : List OrderNode) (o : OrderNode) : List OrderNode :=
  h.orderedInsert sellLE o

/-- The `orders_by_id` dict: an association list in Python dict
insertion order. -/
def dictLookup (d : List (String × OrderNode)) (k : String) : Option OrderNode :=
  match d with
  | [] => none
  | (k1, v) :: rest => if k1 = k then some v else dictLookup rest k

/-- Python dict assignment `d[k] = v`: replace in place, else append. -/
def dictSet (d : List (String × OrderNode)) (k : String) (v : OrderNode) :
    List (String × OrderNode) :=
  match d with
  | [] => [(k, v)]
  | (k1, v1) :: rest =>
    if k1 = k then (k, v) :: rest else (k1, v1) :: dictSet rest k v

/-- Python `del d[k]`. -/
def dictErase (d : List (String × OrderNode)) (k : String) :
    List (String × OrderNode) :=
  match d with
  | [] => []
  | (k1, v1) :: rest =>
    if k1 = k then rest else (k1, v1) :: dictErase rest k

/-- `OrderBook` state (`order_book.py` lines 43-51); the lock is not
modelled (every operation holds it for its whole critical section, so
operations are serialized). -/
structure OrderBook where
  symbol : String
  buy_orders : List OrderNode
  sell_orders : List OrderNode
  orders_by_id : List (String × OrderNode)
deriving DecidableEq

/-- Mutation of a shared Python `OrderNode` object: the object is
identified by its creation timestamp, and every holder of it (either
heap, and the id index) sees the update. -/
def updTs (ts : Nat) (g : OrderNode → OrderNode) (n : OrderNode) : OrderNode :=
  if n.timestamp = ts then g n else n

/-- Apply a node mutation through every alias held by the book. -/
def bookUpdTs (ts : Nat) (g : OrderNode → OrderNode) (b : OrderBook) : OrderBook :=
  { b with
    buy_orders := b.buy_orders.map (updTs ts g)
    sell_orders := b.sell_orders.map (updTs ts g)
    orders_by_id := b.orders_by_id.map (fun p => (p.1, updTs ts g p.2)) }

/-- `order.filled_quantity = order.quantity` (the lazy-removal mark). -/
def markFilled (n : OrderNode) : OrderNode :=
  { n with filled_quantity := n.quantity }

/-- `order.filled_quantity += q`. -/
def addFill (q : Int) (n : OrderNode) : OrderNode :=
  { n with filled_quantity := n.filled_quantity + q }

/-- `OrderBook.add_order` (`order_book.py` lines 53-66). -/
def OrderBook.add_order (b : OrderBook) (o : OrderNode) : Bool × OrderBook :=
  match dictLookup b.orders_by_id o.order_id with
  | some _ => (false, b)
  | none =>
    let b1 := { b with orders_by_id := dictSet b.orders_by_id o.order_id o }
    match o.side with
    | OrderSide.BUY => (true, { b1 with buy_orders := heappushBuy b1.buy_orders o })
    | OrderSide.SELL => (true, { b1 with sell_orders := heappushSell b1.sell_orders o })

/-- `OrderBook.remove_order` (`order_book.py` lines 68-81): delete the
id-index entry, then mark the (shared) node fully filled so the heaps
drop it lazily. -/
def OrderBook.remove_order (b : OrderBook) (order_id : String) : Bool × OrderBook :=
  match dictLookup b.orders_by_id order_id with
  | none => (false, b)
  | some o =>
    let b1 := { b with orders_by_id := dictErase b.orders_by_id order_id }
    (true, bookUpdTs o.timestamp markFilled b1)

/-- `OrderBook.modify_order` (`order_book.py` lines 83-111): mark the
old node filled, build a replacement node (with `filled_quantity = 0`
and a fresh timestamp), re-map the id and push the replacement. -/
def OrderBook.modify_order (b : OrderBook) (order_id : String)
    (new_quantity : Int) (new_price : Int) (now : Nat) : Bool × OrderBook :=
  match dictLookup b.orders_by_id order_id with
  | none => (false, b)
  | some o =>
    let b1 := bookUpdTs o.timestamp markFilled b
    let new_order : OrderNode :=
      { order_id := o.order_id, user_id := o.user_id, symbol := o.symbol,
        side := o.side, quantity := new_quantity, price := new_price,
        timestamp := now, filled_quantity := 0 }
    let b2 := { b1 with orders_by_id := dictSet b1.orders_by_id order_id new_order }
    match new_order.side with
    | OrderSide.BUY => (true, { b2 with buy_orders := heappushBuy b2.buy_orders new_order })
    | OrderSide.SELL => (true, { b2 with sell_orders := heappushSell b2.sell_orders new_order })

/-- `OrderBook.get_best_buy_price` (`order_book.py` lines 113-121):
pop filled orders off the top, return the first live price. -/
def OrderBook.get_best_buy_price (b : OrderBook) : Option Int × OrderBook :=
  let rest := b.buy_orders.dropWhile (fun o => o.is_filled)
  (rest.head?.map (fun o => o.price), { b with buy_orders := rest })

/-- `OrderBook.get_best_sell_price` (`order_book.py` lines 123-131). -/
def OrderBook.get_best_sell_price (b : OrderBook) : Option Int × OrderBook :=
  let rest := b.sell_orders.dropWhile (fun o => o.is_filled)
  (rest.head?.map (fun o => o.price), { b with sell_orders := rest })

/-- The pop loop of `get_market_depth` for one side
(`order_book.py` lines 140-161), tracked by remaining capacity
(`levels - len(depth)`).  Returns the depth entries, the popped
orders in pop order (`temp`), and the unpopped remainder of the
heap. -/
def depthLoop : Nat → List OrderNode → List (Int × Int) × List OrderNode × List OrderNode
  | _, [] => ([], [], [])
  | 0, l => ([], [], l)
  | capacity + 1, o :: rest =>
    if o.is_filled then
      let r := depthLoop (capacity + 1) rest
      (r.1, o :: r.2.1, r.2.2)
    else
      let r := depthLoop capacity rest
      ((o.price, o.remaining_quantity) :: r.1, o :: r.2.1, r.2.2)

/-- Result of `get_market_depth`: the two depth lists (the returned
dict) plus the book as left by the call. -/
structure DepthResult where
  buy : List (Int × Int)
  sell : List (Int × Int)
  book : OrderBook
deriving DecidableEq

/-- `OrderBook.get_market_depth` (`order_book.py` lines 133-166): pop
up to `levels` live orders per side (appending one `(price,
remaining_quantity)` pair per live order), then push every popped
order back. -/
def OrderBook.get_market_depth (b : OrderBook) (levels : Nat) : DepthResult :=
  let rb := depthLoop levels b.buy_orders
  let buy2 := rb.2.1.foldl heappushBuy rb.2.2
  let rs := depthLoop levels b.sell_orders
  let sell2 := rs.2.1.foldl heappushSell rs.2.2
  { buy := rb.1, sell := rs.1,
    book := { b with buy_orders := buy2, sell_orders := sell2 } }

/-- A trade record as built by `_execute_trade`
(`matching_engine.py` lines 222-247); the db-generated trade id and
timestamp are not modelled. -/
structure Trade where
  buy_order_id : String
  sell_order_id : String
  symbol : String
  quantity : Int
  price : Int
deriving DecidableEq

/-- `MatchingEngine._execute_trade` (`matching_engine.py` lines
218-252): one database transaction per trade; on failure the session
is rolled back and `None` is returned, and the caller carries on.  The
oracle list prescribes each successive commit outcome. -/
def execute_trade (journal : List Bool) (buy_order sell_order : OrderNode)
    (quantity price : Int) : Option Trade × List Bool :=
  let t : Trade :=
    { buy_order_id := buy_order.order_id, sell_order_id := sell_order.order_id,
      symbol := buy_order.symbol, quantity := quantity, price := price }
  match journal with
  | [] => (some t, [])
  | ok :: rest => (if ok then some t else none, rest)

/-- Result of one `_match_buy_order` / `_match_sell_order` run.  The
source mutates in place and returns only `executed_trades`; the model
additionally returns the final book, the final state of the incoming
(aggressor) node object, the remaining journal oracle, and — for the
priority statements — the ghost list `partners` of resting orders that
were consumed, in consumption order and at their pre-trade values. -/
structure MatchResult where
  trades : List Trade
  partners : List OrderNode
  agg : OrderNode
  book : OrderBook
  journal : List Bool
deriving DecidableEq

/-- The while loop of `MatchingEngine._match_buy_order`
(`matching_engine.py` lines 156-182), with an explicit fuel; the
wrapper supplies enough fuel for the loop to run to completion.  Each
iteration: stop if the aggressor is filled, the sell heap is empty, or
the top of the sell heap does not cross; pop a filled (ghost) top;
otherwise trade at the resting price, apply the fills through every
alias of the two shared node objects, and pop the resting order if it
became filled. -/
def matchBuyLoop : Nat → List Bool → OrderNode → OrderBook → MatchResult
  | 0, j, buy_order, b => ⟨[], [], buy_order, b, j⟩
  | fuel + 1, j, buy_order, b =>
    if buy_order.is_filled then ⟨[], [], buy_order, b, j⟩
    else
      match b.sell_orders with
      | [] => ⟨[], [], buy_order, b, j⟩
      | sell_order :: rest =>
        if sell_order.price ≤ buy_order.price then
          if sell_order.is_filled then
            matchBuyLoop fuel j buy_order { b with sell_orders := rest }
          else
            let trade_quantity := min buy_order.remaining_quantity sell_order.remaining_quantity
            let trade_price := sell_order.price
            let td := execute_trade j buy_order sell_order trade_quantity trade_price
            let buy2 := addFill trade_quantity buy_order
            let b2 := bookUpdTs sell_order.timestamp (addFill trade_quantity)
                        (bookUpdTs buy_order.timestamp (addFill trade_quantity) b)
            let sell2 := addFill trade_quantity sell_order
            let b3 := if sell2.is_filled then { b2 with sell_orders := b2.sell_orders.tail } else b2
            let r := matchBuyLoop fuel td.2 buy2 b3
            { r with
              trades := match td.1 with | some t => t :: r.trades | none => r.trades
              partners := sell_order :: r.partners }
        else ⟨[], [], buy_order, b, j⟩

/-- The while loop of `MatchingEngine._match_sell_order`
(`matching_engine.py` lines 189-216), mirror image of
`matchBuyLoop`. -/
def matchSellLoop : Nat → List Bool → OrderNode → OrderBook → MatchResult
  | 0, j, sell_order, b => ⟨[], [], sell_order, b, j⟩
  | fuel + 1, j, sell_order, b =>
    if sell_order.is_filled then ⟨[], [], sell_order, b, j⟩
    else
      match b.buy_orders with
      | [] => ⟨[], [], sell_order, b, j⟩
      | buy_order :: rest =>
        if sell_order.price ≤ buy_order.price then
          if buy_order.is_filled then
            matchSellLoop fuel j sell_order { b with buy_orders := rest }
          else
            let trade_quantity := min sell_order.remaining_quantity buy_order.remaining_quantity
            let trade_price := buy_order.price
            let td := execute_trade j buy_order sell_order trade_quantity trade_price
            let sell2 := addFill trade_quantity sell_order
            let b2 := bookUpdTs buy_order.timestamp (addFill trade_quantity)
                        (bookUpdTs sell_order.timestamp (addFill trade_quantity) b)
            let buy2 := addFill trade_quantity buy_order
            let b3 := if buy2.is_filled then { b2 with buy_orders := b2.buy_orders.tail } else b2
            let r := matchSellLoop fuel td.2 sell2 b3
            { r with
              trades := match td.1 with | some t => t :: r.trades | none => r.trades
              partners := buy_order :: r.partners }
        else ⟨[], [], sell_order, b, j⟩

/-- `MatchingEngine._match_buy_order`: run the loop to completion
(enough fuel: the loop pops the opposite heap at every step it
continues, except at most one final partial-fill step). -/
def match_buy_order (j : List Bool) (buy_order : OrderNode) (b : OrderBook) : MatchResult :=
  matchBuyLoop (b.sell_orders.length + 2) j buy_order b

/-- `MatchingEngine._match_sell_order`, run to completion. -/
def match_sell_order (j : List Bool) (sell_order : OrderNode) (b : OrderBook) : MatchResult :=
  matchSellLoop (b.buy_orders.length + 2) j sell_order b

/-- `MatchingEngine._match_order` (`matching_engine.py` lines 141-150). -/
def match_order (j : List Bool) (incoming_order : OrderNode) (b : OrderBook) : MatchResult :=
  match incoming_order.side with
  | OrderSide.BUY => match_buy_order j incoming_order b
  | OrderSide.SELL => match_sell_order j incoming_order b

/-- Result of `MatchingEngine.submit_order`. -/
structure SubmitResult where
  ok : Bool
  trades : List Trade
  book : OrderBook
  journal : List Bool
deriving DecidableEq

/-- `MatchingEngine.submit_order` (`matching_engine.py` lines
109-139) restricted to one symbol's book: build the node (acceptance
timestamp `now`), add it to the book, then match.  A duplicate id is
rejected with no state change. -/
def submit_order (j : List Bool) (b : OrderBook) (now : Nat)
    (order_id user_id symbol : String) (side : OrderSide)
    (quantity price : Int) : SubmitResult :=
  let order_node : OrderNode :=
    { order_id := order_id, user_id := user_id, symbol := symbol,
      side := side, quantity := quantity, price := price,
      timestamp := now, filled_quantity := 0 }
  let ab := b.add_order order_node
  if ab.1 then
    let r := match_order j order_node ab.2
    ⟨true, r.trades, r.book, r.journal⟩
  else
    ⟨false, [], b, j⟩

/-- A submit request as accepted by the frontend (engine assigns the
id and the acceptance timestamp). -/
structure SubmitReq where
  order_id : String
  user_id : String
  symbol : String
  side : OrderSide
  quantity : Int
  price : Int

/-- Drive a sequence of submits through one book with a monotonic
acceptance clock and an always-healthy journal, collecting all
executed trades. -/
def runSubmits : OrderBook → Nat → List SubmitReq → OrderBook × List Trade × Nat
  | b, c, [] => (b, [], c)
  | b, c, r :: rs =>
    let s := submit_order [] b c r.order_id r.user_id r.symbol r.side r.quantity r.price
    let rest := runSubmits s.book (c + 1) rs
    (rest.1, s.trades ++ rest.2.1, rest.2.2)

/-- A fresh empty book for a symbol (`OrderBook.__init__`). -/
def emptyBook (symbol : String) : OrderBook :=
  { symbol := symbol, buy_orders := [], sell_orders := [], orders_by_id := [] }

/-! ### Concrete runs used as counterexamples

Each is a short sequence of engine operations from an empty book,
re-traceable against the Python source by hand. -/

/-- BUY b1 5@100 rests, SELL s1 5@200 rests (no cross), then
`modify_order` moves s1 to price 50 — crossing the resting bid, since
`modify_order` never re-runs matching. -/
def c2Book : OrderBook :=
  let s1 := submit_order [] (emptyBook "X") 0 "b1" "u1" "X" OrderSide.BUY 5 100
  let s2 := submit_order [] s1.book 1 "s1" "u2" "X" OrderSide.SELL 5 200
  (s2.book.modify_order "s1" 5 50 2).2

/-- SELL s1 5@100 rests; then BUY b1 5@100 is submitted while the
journal commit fails. -/
def c4Pre : SubmitResult :=
  submit_order [] (emptyBook "X") 0 "s1" "u1" "X" OrderSide.SELL 5 100

/-- The failing-journal submit for the C4 counterexample. -/
def c4Post : SubmitResult :=
  submit_order [false] c4Pre.book 1 "b1" "u2" "X" OrderSide.BUY 5 100

/-- Two resting sells at the same price 50 (10 each). -/
def c5Book : OrderBook :=
  let s1 := submit_order [] (emptyBook "X") 0 "s1" "u1" "X" OrderSide.SELL 10 50
  (submit_order [] s1.book 1 "s2" "u2" "X" OrderSide.SELL 10 50).book

/-- BUY b1 5@100 fully filled by SELL s1 5@100. -/
def c6Book : OrderBook :=
  let s1 := submit_order [] (emptyBook "AAPL") 0 "b1" "u1" "AAPL" OrderSide.BUY 5 100
  (submit_order [] s1.book 1 "s1" "u2" "AAPL" OrderSide.SELL 5 100).book

/-- BUY b1 10@100 partially filled (4) by SELL s1 4@100. -/
def c7Book : OrderBook :=
  let s1 := submit_order [] (emptyBook "X") 0 "b1" "u1" "X" OrderSide.BUY 10 100
  (submit_order [] s1.book 1 "s1" "u2" "X" OrderSide.SELL 4 100).book

/-- Same fully-filled pair as `c6Book`, rebuilt independently for the
cancel counterexample. -/
def c8Book : OrderBook :=
  let s1 := submit_order [] (emptyBook "AAPL") 0 "b1" "u1" "AAPL" OrderSide.BUY 5 100
  (submit_order [] s1.book 1 "s1" "u2" "AAPL" OrderSide.SELL 5 100).book

/-- BUY b1 10@100 partially filled (4) by SELL s1 4@100, then b1 is
cancelled. -/
def c9Book : OrderBook :=
  let s1 := submit_order [] (emptyBook "X") 0 "b1" "u1" "X" OrderSide.BUY 10 100
  let s2 := submit_order [] s1.book 1 "s1" "u2" "X" OrderSide.SELL 4 100
  (s2.book.remove_order "b1").2

/-- Sum of `filled_quantity` over the id-index entries on one side. -/
def filledSum (s : OrderSide) (d : List (String × OrderNode)) : Int :=
  (d.map (fun p => if p.2.side = s then p.2.filled_quantity else 0)).sum

/-- Total executed volume of a trade list. -/
def tradeVolume (ts : List Trade) : Int :=
  (ts.map (fun t => t.quantity)).sum

/-- C2, claim as stated is false: after the engine operation
`modify_order` on `c2Book`'s history, both best prices exist and
`best_bid = 100 ≥ 50 = best_ask` — `modify_order` applies the
modification without re-running the matching algorithm. -/
theorem c2_modify_leaves_crossed_book_cx :
    (c2Book.get_best_buy_price).1 = some 100 ∧
    (c2Book.get_best_sell_price).1 = some 50 ∧
    ¬ ((100 : Int) < 50) := by decide

/-- C4, claim as stated is false: with the journal commit failing, the
submit still reports success, returns no trades, and the in-memory
fills are kept (s1 ends fully filled, b1 is inserted filled), so the
book is not left as if the submit never occurred and no
`PersistenceError` is raised. -/
theorem c4_no_rollback_on_journal_failure_cx :
    c4Post.ok = true ∧
    c4Post.trades = [] ∧
    (dictLookup c4Post.book.orders_by_id "s1").map (fun o => o.filled_quantity) = some 5 ∧
    (dictLookup c4Pre.book.orders_by_id "s1").map (fun o => o.filled_quantity) = some 0 := by
  decide

/-- C5, claim as stated is false: with two resting sells at price 50,
`get_market_depth` returns one `(price, remaining)` pair per order —
two entries for the single populated level — instead of one aggregated
pair. -/
theorem c5_depth_not_aggregated_cx :
    (c5Book.get_market_depth 10).sell = [(50, 10), (50, 10)] ∧
    [((50 : Int), (10 : Int)), (50, 10)] ≠ [(50, 20)] := by decide

/-- C6, claim as stated is false: after matching completes, the fully
filled order b1 (remaining 0, never cancelled) is still present in
`orders_by_id`. -/
theorem c6_filled_order_stays_in_index_cx :
    (dictLookup c6Book.orders_by_id "b1").map (fun o => o.remaining_quantity) = some 0 := by
  decide

/-- C7, claim as stated is false: b1 has `filled_quantity = 4`, yet
`modify_order` with `new_qty = 2 < 4` succeeds (and installs a
replacement node with `filled_quantity = 0`) instead of failing with
`InvalidQuantity`. -/
theorem c7_modify_below_filled_succeeds_cx :
    (dictLookup c7Book.orders_by_id "b1").map (fun o => o.filled_quantity) = some 4 ∧
    (c7Book.modify_order "b1" 2 100 2).1 = true ∧
    (dictLookup (c7Book.modify_order "b1" 2 100 2).2.orders_by_id "b1").map
      (fun o => (o.quantity, o.filled_quantity)) = some (2, 0) := by decide

/-- C8, claim as stated is false: b1 is fully filled (remaining 0) but
still in the id index, so cancelling it returns success, not
`NotFound`, and mutates the index. -/
theorem c8_cancel_filled_returns_success_cx :
    (dictLookup c8Book.orders_by_id "b1").map (fun o => o.remaining_quantity) = some 0 ∧
    (c8Book.remove_order "b1").1 = true ∧
    dictLookup (c8Book.remove_order "b1").2.orders_by_id "b1" = none := by decide

/-- C9, claim as stated is false: after a partial fill of 4 and a
cancel of the buy order, the id index holds filled 0 on the buy side
against filled 4 on the sell side, so the per-symbol filled sums do
not agree (and the cancelled order's true `filled_quantity` was
discarded by `remove_order`, which overwrote it with `quantity`). -/
theorem c9_cancel_breaks_conservation_cx :
    filledSum OrderSide.BUY c9Book.orders_by_id = 0 ∧
    filledSum OrderSide.SELL c9Book.orders_by_id = 4 ∧
    ¬ ((0 : Int) = 4) := by decide

/-! ### C10: market depth restores the book -/

lemma depthLoop_split : ∀ (c : Nat) (l : List OrderNode),
    (depthLoop c l).2.1 ++ (depthLoop c l).2.2 = l := by
  intro c l
  induction l generalizing c with
  | nil => cases c <;> simp [depthLoop]
  | cons o rest ih =>
    cases c with
    | zero => simp [depthLoop]
    | succ m =>
      by_cases hf : o.is_filled <;> simp [depthLoop, hf, ih]

lemma foldl_heappushBuy_perm : ∀ (t acc : List OrderNode),
    List.Perm (t.foldl heappushBuy acc) (t ++ acc) := by
  intro t
  induction t with
  | nil => intro acc; simp
  | cons o t ih =>
    intro acc
    have h1 : List.Perm (t.foldl heappushBuy (heappushBuy acc o)) (t ++ heappushBuy acc o) := ih _
    have h2 : List.Perm (heappushBuy acc o) (o :: acc) := List.perm_orderedInsert _ _ _
    have h3 : List.Perm (t ++ heappushBuy acc o) (t ++ (o :: acc)) := List.Perm.append_left _ h2
    have h4 : List.Perm (t ++ (o :: acc)) (o :: (t ++ acc)) := List.perm_middle
    exact (h1.trans h3).trans h4

lemma foldl_heappushSell_perm : ∀ (t acc : List OrderNode),
    List.Perm (t.foldl heappushSell acc) (t ++ acc) := by
  intro t
  induction t with
  | nil => intro acc; simp
  | cons o t ih =>
    intro acc
    have h1 : List.Perm (t.foldl heappushSell (heappushSell acc o)) (t ++ heappushSell acc o) := ih _
    have h2 : List.Perm (heappushSell acc o) (o :: acc) := List.perm_orderedInsert _ _ _
    have h3 : List.Perm (t ++ heappushSell acc o) (t ++ (o :: acc)) := List.Perm.append_left _ h2
    have h4 : List.Perm (t ++ (o :: acc)) (o :: (t ++ acc)) := List.perm_middle
    exact (h1.trans h3).trans h4

/-- C10 (confirmed): `get_market_depth` does not change observable
book state — the resulting buy heap and sell heap hold the same
multiset of order nodes as before the call (every popped node is
pushed back), and the id index is untouched, for every book state and
every `levels` argument. -/
theorem c10_depth_is_read_only (b : OrderBook) (levels : Nat) :
    List.Perm (b.get_market_depth levels).book.buy_orders b.buy_orders ∧
    List.Perm (b.get_market_depth levels).book.sell_orders b.sell_orders ∧
    (b.get_market_depth levels).book.orders_by_id = b.orders_by_id := by
  refine ⟨?_, ?_, rfl⟩
  · have h1 := foldl_heappushBuy_perm (depthLoop levels b.buy_orders).2.1 (depthLoop levels b.buy_orders).2.2
    rw [depthLoop_split] at h1
    exact h1
  · have h1 := foldl_heappushSell_perm (depthLoop levels b.sell_orders).2.1 (depthLoop levels b.sell_orders).2.2
    rw [depthLoop_split] at h1
    exact h1

/-! ### Dictionary lemmas -/

/-- Presence of a key in the id index. -/
def dictMem (d : List (String × OrderNode)) (k : String) : Prop :=
  k ∈ d.map Prod.fst

instance decDictMem (d : List (String × OrderNode)) (k : String) : Decidable (dictMem d k) := by
  unfold dictMem; infer_instance

/-- Well-formed id index: one entry per id. -/
def NodupKeys (d : List (String × OrderNode)) : Prop :=
  (d.map Prod.fst).Nodup

instance decNodupKeys (d : List (String × OrderNode)) : Decidable (NodupKeys d) := by
  unfold NodupKeys; infer_instance

lemma dictMem_nil (k : String) : ¬ dictMem [] k := by
  simp [dictMem]

lemma dictMem_cons (k k1 : String) (v : OrderNode) (rest : List (String × OrderNode)) :
    dictMem ((k1, v) :: rest) k ↔ (k = k1 ∨ dictMem rest k) := by
  simp [dictMem, eq_comm]

lemma dictLookup_eq_none_iff (d : List (String × OrderNode)) (k : String) :
    dictLookup d k = none ↔ ¬ dictMem d k := by
  induction d with
  | nil => simp [dictLookup, dictMem]
  | cons p rest ih =>
    obtain ⟨k1, v⟩ := p
    rw [dictMem_cons]
    by_cases h : k1 = k
    · simp [dictLookup, h]
    · have h2 : ¬ (k = k1) := fun e => h e.symm
      simp [dictLookup, h, h2, ih]

lemma dictMem_dictSet (d : List (String × OrderNode)) (k id : String) (v : OrderNode) :
    dictMem (dictSet d k v) id ↔ (dictMem d id ∨ id = k) := by
  induction d with
  | nil =>
    rw [show dictSet [] k v = [(k, v)] from rfl, dictMem_cons]
    simp [dictMem]
  | cons p rest ih =>
    obtain ⟨k1, v1⟩ := p
    by_cases h : k1 = k
    · subst h
      rw [show dictSet ((k1, v1) :: rest) k1 v = (k1, v) :: rest from by simp [dictSet],
        dictMem_cons, dictMem_cons]
      tauto
    · rw [show dictSet ((k1, v1) :: rest) k v = (k1, v1) :: dictSet rest k v from by
          simp [dictSet, h],
        dictMem_cons, dictMem_cons, ih]
      tauto

lemma dictMem_dictErase (d : List (String × OrderNode)) (k id : String)
    (hnd : NodupKeys d) :
    dictMem (dictErase d k) id ↔ (dictMem d id ∧ ¬ (id = k ∧ dictMem d k)) := by
  induction d with
  | nil => simp [dictErase, dictMem]
  | cons p rest ih =>
    obtain ⟨k1, v1⟩ := p
    simp only [NodupKeys, List.map_cons, List.nodup_cons] at hnd
    have hk1 : ¬ dictMem rest k1 := hnd.1
    by_cases h : k1 = k
    · subst h
      rw [show dictErase ((k1, v1) :: rest) k1 = rest from by simp [dictErase]]
      simp only [dictMem_cons, eq_self_iff_true, true_or, not_and, and_imp]
      constructor
      · intro hm
        refine ⟨Or.inr hm, fun hid _ => ?_⟩
        exact hk1 (hid ▸ hm)
      · rintro ⟨h1 | h2, hne⟩
        · exact absurd trivial (hne h1)
        · exact h2
    · rw [show dictErase ((k1, v1) :: rest) k = (k1, v1) :: dictErase rest k from by
        simp [dictErase, h]]
      by_cases hC : id = k
      · subst hC
        have hA : ¬ (id = k1) := fun e => h e.symm
        simp only [dictMem_cons, ih hnd.2, hA, false_or, eq_self_iff_true, true_and]
      · simp only [dictMem_cons, ih hnd.2]
        tauto

lemma keys_map_snd (d : List (String × OrderNode)) (f : OrderNode → OrderNode) :
    ((d.map (fun p => (p.1, f p.2))).map Prod.fst) = d.map Prod.fst := by
  induction d with
  | nil => rfl
  | cons p rest ih => simp [ih]

lemma dictMem_map_snd (d : List (String × OrderNode)) (f : OrderNode → OrderNode) (k : String) :
    dictMem (d.map (fun p => (p.1, f p.2))) k ↔ dictMem d k := by
  unfold dictMem
  rw [keys_map_snd]

lemma dictLookup_dictSet_self (d : List (String × OrderNode)) (k : String) (v : OrderNode) :
    dictLookup (dictSet d k v) k = some v := by
  induction d with
  | nil => simp [dictSet, dictLookup]
  | cons p rest ih =>
    obtain ⟨k1, v1⟩ := p
    by_cases h : k1 = k <;> simp [dictSet, dictLookup, h, ih]

lemma dictLookup_map_snd (d : List (String × OrderNode)) (f : OrderNode → OrderNode) (k : String) :
    dictLookup (d.map (fun p => (p.1, f p.2))) k = (dictLookup d k).map f := by
  induction d with
  | nil => rfl
  | cons p rest ih =>
    obtain ⟨k1, v1⟩ := p
    by_cases h : k1 = k <;> simp [dictLookup, h, ih]

/-! ### C7: modify never validates the new quantity -/

/-- C7 (amended): `modify_order` performs no quantity validation at
all — there is no `InvalidQuantity` error in the code.  For a missing
id it fails and leaves the book unchanged; for any existing id it
succeeds for every `new_quantity` (including `new_quantity <
filled_quantity` of the existing order) and installs a replacement
node with `filled_quantity = 0`, the new quantity and price, and a
fresh timestamp. -/
theorem c7_modify_never_validates_quantity (b : OrderBook) (id : String)
    (nq np : Int) (now : Nat) :
    (dictLookup b.orders_by_id id = none → b.modify_order id nq np now = (false, b)) ∧
    (∀ o, dictLookup b.orders_by_id id = some o →
      (b.modify_order id nq np now).1 = true ∧
      dictLookup (b.modify_order id nq np now).2.orders_by_id id =
        some { order_id := o.order_id, user_id := o.user_id, symbol := o.symbol,
               side := o.side, quantity := nq, price := np,
               timestamp := now, filled_quantity := 0 }) := by
  constructor
  · intro h
    simp [OrderBook.modify_order, h]
  · intro o h
    cases hside : o.side <;>
      simp [OrderBook.modify_order, h, hside, bookUpdTs, dictLookup_dictSet_self]

/-- Witness for C7: on the concrete partially-filled book, modify to
quantity 2 (below the filled 4) succeeds and resets the fill. -/
theorem c7_modify_never_validates_quantity_witness :
    (c7Book.modify_order "b1" 2 100 9).1 = true ∧
    dictLookup (c7Book.modify_order "b1" 2 100 9).2.orders_by_id "b1" =
      some { order_id := "b1", user_id := "u1", symbol := "X",
             side := OrderSide.BUY, quantity := 2, price := 100,
             timestamp := 9, filled_quantity := 0 } :=
  (c7_modify_never_validates_quantity c7Book "b1" 2 100 9).2
    { order_id := "b1", user_id := "u1", symbol := "X",
      side := OrderSide.BUY, quantity := 10, price := 100,
      timestamp := 0, filled_quantity := 4 } (by decide)

/-! ### C8: cancel semantics -/

/-- C8 (amended): `remove_order` returns failure (`NotFound`) exactly
when the id is absent from the id index — which covers never-accepted
and already-cancelled ids — and a failing cancel leaves the book
completely unchanged.  It does not return `NotFound` for an
already fully filled id: fully filled orders remain in the index, so
cancelling one succeeds (and erases it). -/
theorem c8_cancel_notfound_iff_absent (b : OrderBook) (id : String)
    (hnd : NodupKeys b.orders_by_id) :
    ((b.remove_order id).1 = false ↔ dictLookup b.orders_by_id id = none) ∧
    (dictLookup b.orders_by_id id = none → b.remove_order id = (false, b)) ∧
    (∀ o, dictLookup b.orders_by_id id = some o →
      (b.remove_order id).1 = true ∧
      ¬ dictMem (b.remove_order id).2.orders_by_id id) := by
  refine ⟨?_, ?_, ?_⟩
  · cases h : dictLookup b.orders_by_id id <;> simp [OrderBook.remove_order, h]
  · intro h
    simp [OrderBook.remove_order, h]
  · intro o h
    refine ⟨by simp [OrderBook.remove_order, h], ?_⟩
    simp only [OrderBook.remove_order, h, bookUpdTs]
    rw [dictMem_map_snd, dictMem_dictErase _ _ _ hnd]
    tauto

/-- Witness for C8: cancelling the fully filled b1 in the concrete
book succeeds and removes it from the index. -/
theorem c8_cancel_notfound_iff_absent_witness :
    (c8Book.remove_order "b1").1 = true ∧
    ¬ dictMem (c8Book.remove_order "b1").2.orders_by_id "b1" :=
  (c8_cancel_notfound_iff_absent c8Book "b1" (by decide)).2.2
    { order_id := "b1", user_id := "u1", symbol := "AAPL",
      side := OrderSide.BUY, quantity := 5, price := 100,
      timestamp := 0, filled_quantity := 5 } (by decide)

/-! ### Node evolution through the matching loop

During matching, a node object only ever gains fill; every other
attribute is immutable.  `Evolves m n` says `n` is a later state of
the node `m`. -/

def Evolves (m n : OrderNode) : Prop :=
  m.order_id = n.order_id ∧ m.user_id = n.user_id ∧ m.symbol = n.symbol ∧
  m.side = n.side ∧ m.price = n.price ∧ m.timestamp = n.timestamp ∧
  m.quantity = n.quantity ∧ m.filled_quantity ≤ n.filled_quantity

lemma Evolves.refl (n : OrderNode) : Evolves n n :=
  ⟨rfl, rfl, rfl, rfl, rfl, rfl, rfl, le_refl _⟩

lemma Evolves.trans {a b c : OrderNode} (h1 : Evolves a b) (h2 : Evolves b c) :
    Evolves a c := by
  obtain ⟨e1, e2, e3, e4, e5, e6, e7, e8⟩ := h1
  obtain ⟨f1, f2, f3, f4, f5, f6, f7, f8⟩ := h2
  exact ⟨e1.trans f1, e2.trans f2, e3.trans f3, e4.trans f4, e5.trans f5,
    e6.trans f6, e7.trans f7, e8.trans f8⟩

lemma evolves_addFill {q : Int} (hq : 0 ≤ q) (n : OrderNode) :
    Evolves n (addFill q n) := by
  refine ⟨rfl, rfl, rfl, rfl, rfl, rfl, rfl, ?_⟩
  simp [addFill]
  omega

lemma evolves_updTs {q : Int} (hq : 0 ≤ q) (ts : Nat) (n : OrderNode) :
    Evolves n (updTs ts (addFill q) n) := by
  unfold updTs
  split
  · exact evolves_addFill hq n
  · exact Evolves.refl n

lemma exists_evolves_of_mem_map_updTs {q : Int} (hq : 0 ≤ q) {ts : Nat}
    {l : List OrderNode} {n : OrderNode}
    (h : n ∈ l.map (updTs ts (addFill q))) : ∃ m ∈ l, Evolves m n := by
  obtain ⟨m, hm, rfl⟩ := List.mem_map.mp h
  exact ⟨m, hm, evolves_updTs hq ts m⟩

lemma Evolves.not_filled {m n : OrderNode} (h : Evolves m n)
    (hn : n.is_filled = false) : m.is_filled = false := by
  obtain ⟨-, -, -, -, -, -, e7, e8⟩ := h
  simp [OrderNode.is_filled, OrderNode.remaining_quantity] at hn ⊢
  omega

lemma not_filled_remaining_pos {n : OrderNode} (h : n.is_filled = false) :
    0 < n.remaining_quantity := by
  simp [OrderNode.is_filled] at h
  omega

/-- A node unfilled and one unfilled resting partner produce a
positive trade quantity. -/
lemma trade_quantity_pos {a r : OrderNode} (ha : a.is_filled = false)
    (hr : r.is_filled = false) :
    0 < min a.remaining_quantity r.remaining_quantity := by
  have h1 := not_filled_remaining_pos ha
  have h2 := not_filled_remaining_pos hr
  omega

lemma execute_trade_some {j : List Bool} {bo so : OrderNode} {q p : Int} {t : Trade}
    (h : (execute_trade j bo so q p).1 = some t) :
    t = { buy_order_id := bo.order_id, sell_order_id := so.order_id,
          symbol := bo.symbol, quantity := q, price := p } := by
  unfold execute_trade at h
  cases j with
  | nil => simp at h; exact h.symm
  | cons ok rest =>
    by_cases hok : ok = true <;> simp [hok] at h
    exact h.symm

lemma addFill_order_id (q : Int) (n : OrderNode) : (addFill q n).order_id = n.order_id := rfl

lemma addFill_price (q : Int) (n : OrderNode) : (addFill q n).price = n.price := rfl

/-- Combined invariant of one `_match_buy_order` run: the id-index
keys and symbol are unchanged; every node left in either heap is a
later state of a node that was there before; every consumed partner
was an unfilled resting sell whose price crossed the (constant)
aggressor price; every emitted trade names the aggressor as buyer and
is priced at its partner's (the resting order's) price; and the final
aggressor is a later state of the incoming one. -/
lemma matchBuyLoop_spec : ∀ (fuel : Nat) (j : List Bool) (agg : OrderNode) (b : OrderBook),
    ((matchBuyLoop fuel j agg b).book.orders_by_id.map Prod.fst = b.orders_by_id.map Prod.fst) ∧
    ((matchBuyLoop fuel j agg b).book.symbol = b.symbol) ∧
    (∀ n ∈ (matchBuyLoop fuel j agg b).book.sell_orders, ∃ m ∈ b.sell_orders, Evolves m n) ∧
    (∀ n ∈ (matchBuyLoop fuel j agg b).book.buy_orders, ∃ m ∈ b.buy_orders, Evolves m n) ∧
    (∀ p ∈ (matchBuyLoop fuel j agg b).partners,
       p.is_filled = false ∧ p.price ≤ agg.price ∧ ∃ m ∈ b.sell_orders, Evolves m p) ∧
    (∀ t ∈ (matchBuyLoop fuel j agg b).trades,
       t.buy_order_id = agg.order_id ∧ t.symbol = agg.symbol ∧
       ∃ p ∈ (matchBuyLoop fuel j agg b).partners,
         t.sell_order_id = p.order_id ∧ t.price = p.price) ∧
    Evolves agg (matchBuyLoop fuel j agg b).agg := by
  intro fuel
  induction fuel with
  | zero =>
    intro j agg b
    exact ⟨rfl, rfl, fun n hn => ⟨n, hn, Evolves.refl n⟩,
      fun n hn => ⟨n, hn, Evolves.refl n⟩, by simp [matchBuyLoop],
      by simp [matchBuyLoop], Evolves.refl agg⟩
  | succ n ih =>
    intro j agg b
    rw [matchBuyLoop]
    split
    · exact ⟨rfl, rfl, fun m hm => ⟨m, hm, Evolves.refl m⟩,
        fun m hm => ⟨m, hm, Evolves.refl m⟩, by simp, by simp, Evolves.refl agg⟩
    · next hf =>
      split
      · next hs =>
        exact ⟨rfl, rfl, fun m hm => ⟨m, hm, Evolves.refl m⟩,
          fun m hm => ⟨m, hm, Evolves.refl m⟩, by simp, by simp, Evolves.refl agg⟩
      · next top rest hs =>
        split
        · next hp =>
          split
          · next hg =>
            obtain ⟨k1, k2, k3, k4, k5, k6, k7⟩ := ih j agg { b with sell_orders := rest }
            refine ⟨k1, k2, ?_, k4, ?_, k6, k7⟩
            · intro m hm
              obtain ⟨m0, hm0, he⟩ := k3 m hm
              exact ⟨m0, by rw [hs]; exact List.mem_cons_of_mem _ hm0, he⟩
            · intro p hpp
              obtain ⟨e1, e2, m0, hm0, he⟩ := k5 p hpp
              exact ⟨e1, e2, m0, by rw [hs]; exact List.mem_cons_of_mem _ hm0, he⟩
          · next hg =>
            have hf0 : agg.is_filled = false := by
              cases h : agg.is_filled
              · rfl
              · exact absurd h hf
            have hg0 : top.is_filled = false := by
              cases h : top.is_filled
              · rfl
              · exact absurd h hg
            have hq : 0 ≤ min agg.remaining_quantity top.remaining_quantity :=
              le_of_lt (trade_quantity_pos hf0 hg0)
            set q := min agg.remaining_quantity top.remaining_quantity with hqdef
            set td := execute_trade j agg top q top.price with htd
            set buy2 := addFill q agg with hbuy2
            set b2 := bookUpdTs top.timestamp (addFill q)
              (bookUpdTs agg.timestamp (addFill q) b) with hb2
            set b3 := if (addFill q top).is_filled
              then { b2 with sell_orders := b2.sell_orders.tail } else b2 with hb3
            obtain ⟨k1, k2, k3, k4, k5, k6, k7⟩ := ih td.2 buy2 b3
            have hb3sell : ∀ m ∈ b3.sell_orders, ∃ m0 ∈ b.sell_orders, Evolves m0 m := by
              intro m hm
              have hmb2 : m ∈ b2.sell_orders := by
                rw [hb3] at hm
                by_cases hfil : (addFill q top).is_filled
                · simp only [hfil, if_true] at hm
                  exact List.tail_subset _ hm
                · simp only [hfil, Bool.false_eq_true, if_false] at hm
                  exact hm
              rw [hb2] at hmb2
              simp only [bookUpdTs] at hmb2
              obtain ⟨m1, hm1, he1⟩ := exists_evolves_of_mem_map_updTs hq hmb2
              obtain ⟨m0, hm0, he0⟩ := exists_evolves_of_mem_map_updTs hq hm1
              exact ⟨m0, hm0, he0.trans he1⟩
            have hb3buy : ∀ m ∈ b3.buy_orders, ∃ m0 ∈ b.buy_orders, Evolves m0 m := by
              intro m hm
              have hmb2 : m ∈ b2.buy_orders := by
                rw [hb3] at hm
                by_cases hfil : (addFill q top).is_filled
                · simp only [hfil, if_true] at hm
                  exact hm
                · simp only [hfil, Bool.false_eq_true, if_false] at hm
                  exact hm
              rw [hb2] at hmb2
              simp only [bookUpdTs] at hmb2
              obtain ⟨m1, hm1, he1⟩ := exists_evolves_of_mem_map_updTs hq hmb2
              obtain ⟨m0, hm0, he0⟩ := exists_evolves_of_mem_map_updTs hq hm1
              exact ⟨m0, hm0, he0.trans he1⟩
            have hb3keys : b3.orders_by_id.map Prod.fst = b.orders_by_id.map Prod.fst := by
              have hd : b3.orders_by_id = b2.orders_by_id := by
                rw [hb3]
                by_cases hfil : (addFill q top).is_filled <;> simp [hfil]
              rw [hd, hb2]
              simp only [bookUpdTs]
              rw [keys_map_snd, keys_map_snd]
            have hb3sym : b3.symbol = b.symbol := by
              have hd : b3.symbol = b2.symbol := by
                rw [hb3]
                by_cases hfil : (addFill q top).is_filled <;> simp [hfil]
              rw [hd, hb2]
              rfl
            refine ⟨?_, ?_, ?_, ?_, ?_, ?_, ?_⟩
            · show (matchBuyLoop n td.2 buy2 b3).book.orders_by_id.map Prod.fst =
                b.orders_by_id.map Prod.fst
              rw [k1, hb3keys]
            · show (matchBuyLoop n td.2 buy2 b3).book.symbol = b.symbol
              rw [k2, hb3sym]
            · show ∀ m ∈ (matchBuyLoop n td.2 buy2 b3).book.sell_orders,
                ∃ m0 ∈ b.sell_orders, Evolves m0 m
              intro m hm
              obtain ⟨m1, hm1, he1⟩ := k3 m hm
              obtain ⟨m0, hm0, he0⟩ := hb3sell m1 hm1
              exact ⟨m0, hm0, he0.trans he1⟩
            · show ∀ m ∈ (matchBuyLoop n td.2 buy2 b3).book.buy_orders,
                ∃ m0 ∈ b.buy_orders, Evolves m0 m
              intro m hm
              obtain ⟨m1, hm1, he1⟩ := k4 m hm
              obtain ⟨m0, hm0, he0⟩ := hb3buy m1 hm1
              exact ⟨m0, hm0, he0.trans he1⟩
            · show ∀ p ∈ top :: (matchBuyLoop n td.2 buy2 b3).partners,
                p.is_filled = false ∧ p.price ≤ agg.price ∧ ∃ m ∈ b.sell_orders, Evolves m p
              intro p hpp
              simp only [List.mem_cons] at hpp
              rcases hpp with rfl | hpp
              · exact ⟨hg0, hp, p, by rw [hs]; exact List.mem_cons_self _ _, Evolves.refl p⟩
              · obtain ⟨e1, e2, m1, hm1, he⟩ := k5 p hpp
                obtain ⟨m0, hm0, he0⟩ := hb3sell m1 hm1
                refine ⟨e1, ?_, m0, hm0, he0.trans he⟩
                rw [hbuy2] at e2
                exact e2
            · show ∀ t ∈ (match td.1 with
                  | some tr => tr :: (matchBuyLoop n td.2 buy2 b3).trades
                  | none => (matchBuyLoop n td.2 buy2 b3).trades),
                t.buy_order_id = agg.order_id ∧ t.symbol = agg.symbol ∧
                ∃ p ∈ top :: (matchBuyLoop n td.2 buy2 b3).partners,
                  t.sell_order_id = p.order_id ∧ t.price = p.price
              intro t ht
              cases htd1 : td.1 with
              | none =>
                rw [htd1] at ht
                obtain ⟨e1, e2, p1, hp1, e3, e4⟩ := k6 t ht
                rw [hbuy2] at e1 e2
                exact ⟨e1, e2, p1, List.mem_cons_of_mem _ hp1, e3, e4⟩
              | some tr =>
                rw [htd1] at ht
                simp only [List.mem_cons] at ht
                rcases ht with rfl | ht
                · have htr := execute_trade_some (htd ▸ htd1)
                  subst htr
                  exact ⟨rfl, rfl, top, List.mem_cons_self _ _, rfl, rfl⟩
                · obtain ⟨e1, e2, p1, hp1, e3, e4⟩ := k6 t ht
                  rw [hbuy2] at e1 e2
                  exact ⟨e1, e2, p1, List.mem_cons_of_mem _ hp1, e3, e4⟩
            · show Evolves agg (matchBuyLoop n td.2 buy2 b3).agg
              exact (evolves_addFill hq agg).trans k7
        · next hp =>
          exact ⟨rfl, rfl, fun m hm => ⟨m, hm, Evolves.refl m⟩,
            fun m hm => ⟨m, hm, Evolves.refl m⟩, by simp, by simp, Evolves.refl agg⟩

/-- Mirror of `matchBuyLoop_spec` for `_match_sell_order`: partners
are resting buys, each trade names the aggressor as seller and is
priced at its resting partner's price (the trade symbol is read off
the resting buy order). -/
lemma matchSellLoop_spec : ∀ (fuel : Nat) (j : List Bool) (agg : OrderNode) (b : OrderBook),
    ((matchSellLoop fuel j agg b).book.orders_by_id.map Prod.fst = b.orders_by_id.map Prod.fst) ∧
    ((matchSellLoop fuel j agg b).book.symbol = b.symbol) ∧
    (∀ n ∈ (matchSellLoop fuel j agg b).book.buy_orders, ∃ m ∈ b.buy_orders, Evolves m n) ∧
    (∀ n ∈ (matchSellLoop fuel j agg b).book.sell_orders, ∃ m ∈ b.sell_orders, Evolves m n) ∧
    (∀ p ∈ (matchSellLoop fuel j agg b).partners,
       p.is_filled = false ∧ agg.price ≤ p.price ∧ ∃ m ∈ b.buy_orders, Evolves m p) ∧
    (∀ t ∈ (matchSellLoop fuel j agg b).trades,
       t.sell_order_id = agg.order_id ∧
       ∃ p ∈ (matchSellLoop fuel j agg b).partners,
         t.buy_order_id = p.order_id ∧ t.price = p.price ∧ t.symbol = p.symbol) ∧
    Evolves agg (matchSellLoop fuel j agg b).agg := by
  intro fuel
  induction fuel with
  | zero =>
    intro j agg b
    exact ⟨rfl, rfl, fun n hn => ⟨n, hn, Evolves.refl n⟩,
      fun n hn => ⟨n, hn, Evolves.refl n⟩, by simp [matchSellLoop],
      by simp [matchSellLoop], Evolves.refl agg⟩
  | succ n ih =>
    intro j agg b
    rw [matchSellLoop]
    split
    · exact ⟨rfl, rfl, fun m hm => ⟨m, hm, Evolves.refl m⟩,
        fun m hm => ⟨m, hm, Evolves.refl m⟩, by simp, by simp, Evolves.refl agg⟩
    · next hf =>
      split
      · next hs =>
        exact ⟨rfl, rfl, fun m hm => ⟨m, hm, Evolves.refl m⟩,
          fun m hm => ⟨m, hm, Evolves.refl m⟩, by simp, by simp, Evolves.refl agg⟩
      · next top rest hs =>
        split
        · next hp =>
          split
          · next hg =>
            obtain ⟨k1, k2, k3, k4, k5, k6, k7⟩ := ih j agg { b with buy_orders := rest }
            refine ⟨k1, k2, ?_, k4, ?_, k6, k7⟩
            · intro m hm
              obtain ⟨m0, hm0, he⟩ := k3 m hm
              exact ⟨m0, by rw [hs]; exact List.mem_cons_of_mem _ hm0, he⟩
            · intro p hpp
              obtain ⟨e1, e2, m0, hm0, he⟩ := k5 p hpp
              exact ⟨e1, e2, m0, by rw [hs]; exact List.mem_cons_of_mem _ hm0, he⟩
          · next hg =>
            have hf0 : agg.is_filled = false := by
              cases h : agg.is_filled
              · rfl
              · exact absurd h hf
            have hg0 : top.is_filled = false := by
              cases h : top.is_filled
              · rfl
              · exact absurd h hg
            have hq : 0 ≤ min agg.remaining_quantity top.remaining_quantity :=
              le_of_lt (trade_quantity_pos hf0 hg0)
            set q := min agg.remaining_quantity top.remaining_quantity with hqdef
            set td := execute_trade j top agg q top.price with htd
            set sell2 := addFill q agg with hsell2
            set b2 := bookUpdTs top.timestamp (addFill q)
              (bookUpdTs agg.timestamp (addFill q) b) with hb2
            set b3 := if (addFill q top).is_filled
              then { b2 with buy_orders := b2.buy_orders.tail } else b2 with hb3
            obtain ⟨k1, k2, k3, k4, k5, k6, k7⟩ := ih td.2 sell2 b3
            have hb3buy : ∀ m ∈ b3.buy_orders, ∃ m0 ∈ b.buy_orders, Evolves m0 m := by
              intro m hm
              have hmb2 : m ∈ b2.buy_orders := by
                rw [hb3] at hm
                by_cases hfil : (addFill q top).is_filled
                · simp only [hfil, if_true] at hm
                  exact List.tail_subset _ hm
                · simp only [hfil, Bool.false_eq_true, if_false] at hm
                  exact hm
              rw [hb2] at hmb2
              simp only [bookUpdTs] at hmb2
              obtain ⟨m1, hm1, he1⟩ := exists_evolves_of_mem_map_updTs hq hmb2
              obtain ⟨m0, hm0, he0⟩ := exists_evolves_of_mem_map_updTs hq hm1
              exact ⟨m0, hm0, he0.trans he1⟩
            have hb3sell : ∀ m ∈ b3.sell_orders, ∃ m0 ∈ b.sell_orders, Evolves m0 m := by
              intro m hm
              have hmb2 : m ∈ b2.sell_orders := by
                rw [hb3] at hm
                by_cases hfil : (addFill q top).is_filled
                · simp only [hfil, if_true] at hm
                  exact hm
                · simp only [hfil, Bool.false_eq_true, if_false] at hm
                  exact hm
              rw [hb2] at hmb2
              simp only [bookUpdTs] at hmb2
              obtain ⟨m1, hm1, he1⟩ := exists_evolves_of_mem_map_updTs hq hmb2
              obtain ⟨m0, hm0, he0⟩ := exists_evolves_of_mem_map_updTs hq hm1
              exact ⟨m0, hm0, he0.trans he1⟩
            have hb3keys : b3.orders_by_id.map Prod.fst = b.orders_by_id.map Prod.fst := by
              have hd : b3.orders_by_id = b2.orders_by_id := by
                rw [hb3]
                by_cases hfil : (addFill q top).is_filled <;> simp [hfil]
              rw [hd, hb2]
              simp only [bookUpdTs]
              rw [keys_map_snd, keys_map_snd]
            have hb3sym : b3.symbol = b.symbol := by
              have hd : b3.symbol = b2.symbol := by
                rw [hb3]
                by_cases hfil : (addFill q top).is_filled <;> simp [hfil]
              rw [hd, hb2]
              rfl
            refine ⟨?_, ?_, ?_, ?_, ?_, ?_, ?_⟩
            · show (matchSellLoop n td.2 sell2 b3).book.orders_by_id.map Prod.fst =
                b.orders_by_id.map Prod.fst
              rw [k1, hb3keys]
            · show (matchSellLoop n td.2 sell2 b3).book.symbol = b.symbol
              rw [k2, hb3sym]
            · show ∀ m ∈ (matchSellLoop n td.2 sell2 b3).book.buy_orders,
                ∃ m0 ∈ b.buy_orders, Evolves m0 m
              intro m hm
              obtain ⟨m1, hm1, he1⟩ := k3 m hm
              obtain ⟨m0, hm0, he0⟩ := hb3buy m1 hm1
              exact ⟨m0, hm0, he0.trans he1⟩
            · show ∀ m ∈ (matchSellLoop n td.2 sell2 b3).book.sell_orders,
                ∃ m0 ∈ b.sell_orders, Evolves m0 m
              intro m hm
              obtain ⟨m1, hm1, he1⟩ := k4 m hm
              obtain ⟨m0, hm0, he0⟩ := hb3sell m1 hm1
              exact ⟨m0, hm0, he0.trans he1⟩
            · show ∀ p ∈ top :: (matchSellLoop n td.2 sell2 b3).partners,
                p.is_filled = false ∧ agg.price ≤ p.price ∧ ∃ m ∈ b.buy_orders, Evolves m p
              intro p hpp
              simp only [List.mem_cons] at hpp
              rcases hpp with rfl | hpp
              · exact ⟨hg0, hp, p, by rw [hs]; exact List.mem_cons_self _ _, Evolves.refl p⟩
              · obtain ⟨e1, e2, m1, hm1, he⟩ := k5 p hpp
                obtain ⟨m0, hm0, he0⟩ := hb3buy m1 hm1
                refine ⟨e1, ?_, m0, hm0, he0.trans he⟩
                rw [hsell2] at e2
                exact e2
            · show ∀ t ∈ (match td.1 with
                  | some tr => tr :: (matchSellLoop n td.2 sell2 b3).trades
                  | none => (matchSellLoop n td.2 sell2 b3).trades),
                t.sell_order_id = agg.order_id ∧
                ∃ p ∈ top :: (matchSellLoop n td.2 sell2 b3).partners,
                  t.buy_order_id = p.order_id ∧ t.price = p.price ∧ t.symbol = p.symbol
              intro t ht
              cases htd1 : td.1 with
              | none =>
                rw [htd1] at ht
                obtain ⟨e1, p1, hp1, e2, e3, e4⟩ := k6 t ht
                rw [hsell2] at e1
                exact ⟨e1, p1, List.mem_cons_of_mem _ hp1, e2, e3, e4⟩
              | some tr =>
                rw [htd1] at ht
                simp only [List.mem_cons] at ht
                rcases ht with rfl | ht
                · have htr := execute_trade_some (htd ▸ htd1)
                  subst htr
                  exact ⟨rfl, top, List.mem_cons_self _ _, rfl, rfl, rfl⟩
                · obtain ⟨e1, p1, hp1, e2, e3, e4⟩ := k6 t ht
                  rw [hsell2] at e1
                  exact ⟨e1, p1, List.mem_cons_of_mem _ hp1, e2, e3, e4⟩
            · show Evolves agg (matchSellLoop n td.2 sell2 b3).agg
              exact (evolves_addFill hq agg).trans k7
        · next hp =>
          exact ⟨rfl, rfl, fun m hm => ⟨m, hm, Evolves.refl m⟩,
            fun m hm => ⟨m, hm, Evolves.refl m⟩, by simp, by simp, Evolves.refl agg⟩

/-! ### C3: passive-price rule -/

/-- C3 (confirmed): every trade emitted by matching an incoming order
is priced at the price of the resting (passive) order: for a buy
aggressor, each trade's price equals the price of an unfilled resting
sell node (identified by the trade's `sell_order_id`) present in the
book before the match, and that price is only bounded by — not equal
to — the aggressor's price (`≤` for buys, `≥` for sells). -/
theorem c3_trade_price_is_resting_price (j : List Bool) (agg : OrderNode) (b : OrderBook) :
    (∀ t ∈ (match_buy_order j agg b).trades,
       t.buy_order_id = agg.order_id ∧
       ∃ m ∈ b.sell_orders, m.is_filled = false ∧ m.order_id = t.sell_order_id ∧
         t.price = m.price ∧ m.price ≤ agg.price) ∧
    (∀ t ∈ (match_sell_order j agg b).trades,
       t.sell_order_id = agg.order_id ∧
       ∃ m ∈ b.buy_orders, m.is_filled = false ∧ m.order_id = t.buy_order_id ∧
         t.price = m.price ∧ agg.price ≤ m.price) := by
  constructor
  · intro t ht
    obtain ⟨-, -, -, -, k5, k6, -⟩ :=
      matchBuyLoop_spec (b.sell_orders.length + 2) j agg b
    obtain ⟨e1, -, p, hp, e3, e4⟩ := k6 t ht
    obtain ⟨f1, f2, m, hm, he⟩ := k5 p hp
    have hnf := he.not_filled f1
    obtain ⟨g1, -, -, -, g5, -, -, -⟩ := he
    refine ⟨e1, m, hm, hnf, g1.trans e3.symm, ?_, ?_⟩
    · rw [e4, g5]
    · rw [g5]
      exact f2
  · intro t ht
    obtain ⟨-, -, -, -, k5, k6, -⟩ :=
      matchSellLoop_spec (b.buy_orders.length + 2) j agg b
    obtain ⟨e1, p, hp, e2, e3, -⟩ := k6 t ht
    obtain ⟨f1, f2, m, hm, he⟩ := k5 p hp
    have hnf := he.not_filled f1
    obtain ⟨g1, -, -, -, g5, -, -, -⟩ := he
    refine ⟨e1, m, hm, hnf, g1.trans e2.symm, ?_, ?_⟩
    · rw [e3, g5]
    · rw [g5]
      exact f2

/-- Book with one resting sell s1 5@100, for the C3 witness. -/
def c3Book : OrderBook :=
  (submit_order [] (emptyBook "X") 0 "s1" "u1" "X" OrderSide.SELL 5 100).book

/-- Aggressor BUY b1 5@105 for the C3 witness. -/
def c3Agg : OrderNode :=
  { order_id := "b1", user_id := "u2", symbol := "X", side := OrderSide.BUY,
    quantity := 5, price := 105, timestamp := 1, filled_quantity := 0 }

/-- The trade emitted by matching `c3Agg` into `c3Book`. -/
def c3Trade : Trade :=
  { buy_order_id := "b1", sell_order_id := "s1", symbol := "X",
    quantity := 5, price := 100 }

/-- Witness for C3: the concrete crossing trade (priced 100 at the
resting sell's price, not the aggressor's 105). -/
theorem c3_trade_price_is_resting_price_witness :
    c3Trade.buy_order_id = c3Agg.order_id ∧
    ∃ m ∈ c3Book.sell_orders, m.is_filled = false ∧
      m.order_id = c3Trade.sell_order_id ∧
      c3Trade.price = m.price ∧ m.price ≤ c3Agg.price :=
  (c3_trade_price_is_resting_price [] c3Agg c3Book).1 c3Trade (by decide)

/-! ### C6: id-index membership -/

lemma dictMem_of_keys_eq {d1 d2 : List (String × OrderNode)}
    (h : d1.map Prod.fst = d2.map Prod.fst) (k : String) :
    dictMem d1 k ↔ dictMem d2 k := by
  unfold dictMem
  rw [h]

lemma match_buy_order_keys (j : List Bool) (agg : OrderNode) (b : OrderBook) :
    (match_buy_order j agg b).book.orders_by_id.map Prod.fst = b.orders_by_id.map Prod.fst :=
  (matchBuyLoop_spec _ _ _ _).1

lemma match_sell_order_keys (j : List Bool) (agg : OrderNode) (b : OrderBook) :
    (match_sell_order j agg b).book.orders_by_id.map Prod.fst = b.orders_by_id.map Prod.fst :=
  (matchSellLoop_spec _ _ _ _).1

/-- C6 (amended): id-index membership is driven purely by accept /
cancel, not by fills.  After a submit, an id is present iff it was
present before or is the submitted id (in particular the incoming
order's id stays in the index even if the submit fully fills it, and
matching removes no resting id, fully filled or not).  A cancel
removes exactly its target id; a modify preserves membership
exactly. -/
theorem c6_index_tracks_accept_and_cancel (b : OrderBook) (hnd : NodupKeys b.orders_by_id) :
    (∀ (j : List Bool) (now : Nat) (oid uid sym : String) (sd : OrderSide)
       (qt pr : Int) (id : String),
       dictMem (submit_order j b now oid uid sym sd qt pr).book.orders_by_id id ↔
       (dictMem b.orders_by_id id ∨ id = oid)) ∧
    (∀ oid id,
       dictMem (b.remove_order oid).2.orders_by_id id ↔
       (dictMem b.orders_by_id id ∧ ¬ (id = oid ∧ dictMem b.orders_by_id oid))) ∧
    (∀ (oid : String) (nq np : Int) (now : Nat) (id : String),
       dictMem (b.modify_order oid nq np now).2.orders_by_id id ↔
       (dictMem b.orders_by_id id ∨ (id = oid ∧ dictMem b.orders_by_id oid))) := by
  refine ⟨?_, ?_, ?_⟩
  · intro j now oid uid sym sd qt pr id
    cases hl : dictLookup b.orders_by_id oid with
    | some o =>
      have hmem : dictMem b.orders_by_id oid := by
        by_contra hc
        rw [← dictLookup_eq_none_iff] at hc
        rw [hl] at hc
        exact Option.some_ne_none _ hc
      have : submit_order j b now oid uid sym sd qt pr = ⟨false, [], b, j⟩ := by
        simp [submit_order, OrderBook.add_order, hl]
      rw [this]
      constructor
      · exact Or.inl
      · rintro (h | rfl)
        · exact h
        · exact hmem
    | none =>
      cases sd with
      | BUY =>
        have hres : (submit_order j b now oid uid sym OrderSide.BUY qt pr).book =
            (match_buy_order j
              { order_id := oid, user_id := uid, symbol := sym, side := OrderSide.BUY,
                quantity := qt, price := pr, timestamp := now, filled_quantity := 0 }
              { b with
                orders_by_id := dictSet b.orders_by_id oid
                  { order_id := oid, user_id := uid, symbol := sym, side := OrderSide.BUY,
                    quantity := qt, price := pr, timestamp := now, filled_quantity := 0 }
                buy_orders := heappushBuy b.buy_orders
                  { order_id := oid, user_id := uid, symbol := sym, side := OrderSide.BUY,
                    quantity := qt, price := pr, timestamp := now, filled_quantity := 0 } }).book := by
          simp [submit_order, OrderBook.add_order, hl, match_order]
        rw [hres]
        rw [dictMem_of_keys_eq (match_buy_order_keys _ _ _) id]
        exact dictMem_dictSet _ _ _ _
      | SELL =>
        have hres : (submit_order j b now oid uid sym OrderSide.SELL qt pr).book =
            (match_sell_order j
              { order_id := oid, user_id := uid, symbol := sym, side := OrderSide.SELL,
                quantity := qt, price := pr, timestamp := now, filled_quantity := 0 }
              { b with
                orders_by_id := dictSet b.orders_by_id oid
                  { order_id := oid, user_id := uid, symbol := sym, side := OrderSide.SELL,
                    quantity := qt, price := pr, timestamp := now, filled_quantity := 0 }
                sell_orders := heappushSell b.sell_orders
                  { order_id := oid, user_id := uid, symbol := sym, side := OrderSide.SELL,
                    quantity := qt, price := pr, timestamp := now, filled_quantity := 0 } }).book := by
          simp [submit_order, OrderBook.add_order, hl, match_order]
        rw [hres]
        rw [dictMem_of_keys_eq (match_sell_order_keys _ _ _) id]
        exact dictMem_dictSet _ _ _ _
  · intro oid id
    cases hl : dictLookup b.orders_by_id oid with
    | none =>
      have hnm : ¬ dictMem b.orders_by_id oid := (dictLookup_eq_none_iff _ _).mp hl
      simp only [OrderBook.remove_order, hl]
      tauto
    | some o =>
      have hmem : dictMem b.orders_by_id oid := by
        by_contra hc
        rw [← dictLookup_eq_none_iff] at hc
        rw [hl] at hc
        exact Option.some_ne_none _ hc
      simp only [OrderBook.remove_order, hl, bookUpdTs]
      rw [dictMem_map_snd, dictMem_dictErase _ _ _ hnd]
      try tauto
  · intro oid nq np now id
    cases hl : dictLookup b.orders_by_id oid with
    | none =>
      have hnm : ¬ dictMem b.orders_by_id oid := (dictLookup_eq_none_iff _ _).mp hl
      simp only [OrderBook.modify_order, hl]
      try tauto
    | some o =>
      have hmem : dictMem b.orders_by_id oid := by
        by_contra hc
        rw [← dictLookup_eq_none_iff] at hc
        rw [hl] at hc
        exact Option.some_ne_none _ hc
      have hd : (b.modify_order oid nq np now).2.orders_by_id =
          dictSet ((bookUpdTs o.timestamp markFilled b).orders_by_id) oid
            { order_id := o.order_id, user_id := o.user_id, symbol := o.symbol,
              side := o.side, quantity := nq, price := np,
              timestamp := now, filled_quantity := 0 } := by
        cases hside : o.side <;> simp [OrderBook.modify_order, hl, hside]
      rw [hd, dictMem_dictSet]
      simp only [bookUpdTs]
      rw [dictMem_map_snd]
      tauto

/-- Witness for C6, at the concrete fully-filled book: b1 remains in
the index after a further (rejected) submit of the same id. -/
theorem c6_index_tracks_accept_and_cancel_witness :
    dictMem (submit_order [] c6Book 7 "b1" "u9" "AAPL" OrderSide.BUY 1 10).book.orders_by_id "b1" ↔
    (dictMem c6Book.orders_by_id "b1" ∨ "b1" = "b1") :=
  (c6_index_tracks_accept_and_cancel c6Book (by decide)).1 [] 7 "b1" "u9" "AAPL"
    OrderSide.BUY 1 10 "b1"

/-! ### C4: journal failure never rolls back the book -/

lemma sublist_match_trade {o1 : Option Trade} {t : Trade} {l1 l2 : List Trade}
    (hsub : l1.Sublist l2) (h1 : ∀ tr, o1 = some tr → tr = t) :
    (match o1 with | some tr => tr :: l1 | none => l1).Sublist (t :: l2) := by
  cases o1 with
  | none => exact hsub.cons t
  | some tr => rw [h1 tr rfl]; exact hsub.cons₂ t

/-- The matching loop's book evolution, final aggressor state and
partner sequence are independent of the journal oracle; the oracle
only filters the returned trade list (a failed commit silently drops
its trade). -/
lemma matchBuyLoop_journal : ∀ (fuel : Nat) (j : List Bool) (agg : OrderNode) (b : OrderBook),
    (matchBuyLoop fuel j agg b).book = (matchBuyLoop fuel [] agg b).book ∧
    (matchBuyLoop fuel j agg b).agg = (matchBuyLoop fuel [] agg b).agg ∧
    (matchBuyLoop fuel j agg b).partners = (matchBuyLoop fuel [] agg b).partners ∧
    (matchBuyLoop fuel j agg b).trades.Sublist (matchBuyLoop fuel [] agg b).trades := by
  intro fuel
  induction fuel with
  | zero => exact fun j agg b => ⟨rfl, rfl, rfl, List.Sublist.refl _⟩
  | succ n ih =>
    intro j agg b
    rw [matchBuyLoop, matchBuyLoop]
    split
    · exact ⟨rfl, rfl, rfl, List.Sublist.refl _⟩
    · next hf =>
      split
      · next hs => exact ⟨rfl, rfl, rfl, List.Sublist.refl _⟩
      · next top rest hs =>
        split
        · next hp =>
          split
          · next hg => exact ih j agg { b with sell_orders := rest }
          · next hg =>
            refine ⟨?_, ?_, ?_, ?_⟩
            · exact ((ih _ _ _).1).trans (((ih _ _ _).1).symm)
            · exact ((ih _ _ _).2.1).trans (((ih _ _ _).2.1).symm)
            · exact congrArg (List.cons top)
                (((ih _ _ _).2.2.1).trans (((ih _ _ _).2.2.1).symm))
            · exact sublist_match_trade ((ih _ _ _).2.2.2) (fun tr h => execute_trade_some h)
        · next hp => exact ⟨rfl, rfl, rfl, List.Sublist.refl _⟩

/-- Mirror of `matchBuyLoop_journal` for `_match_sell_order`. -/
lemma matchSellLoop_journal : ∀ (fuel : Nat) (j : List Bool) (agg : OrderNode) (b : OrderBook),
    (matchSellLoop fuel j agg b).book = (matchSellLoop fuel [] agg b).book ∧
    (matchSellLoop fuel j agg b).agg = (matchSellLoop fuel [] agg b).agg ∧
    (matchSellLoop fuel j agg b).partners = (matchSellLoop fuel [] agg b).partners ∧
    (matchSellLoop fuel j agg b).trades.Sublist (matchSellLoop fuel [] agg b).trades := by
  intro fuel
  induction fuel with
  | zero => exact fun j agg b => ⟨rfl, rfl, rfl, List.Sublist.refl _⟩
  | succ n ih =>
    intro j agg b
    rw [matchSellLoop, matchSellLoop]
    split
    · exact ⟨rfl, rfl, rfl, List.Sublist.refl _⟩
    · next hf =>
      split
      · next hs => exact ⟨rfl, rfl, rfl, List.Sublist.refl _⟩
      · next top rest hs =>
        split
        · next hp =>
          split
          · next hg => exact ih j agg { b with buy_orders := rest }
          · next hg =>
            refine ⟨?_, ?_, ?_, ?_⟩
            · exact ((ih _ _ _).1).trans (((ih _ _ _).1).symm)
            · exact ((ih _ _ _).2.1).trans (((ih _ _ _).2.1).symm)
            · exact congrArg (List.cons top)
                (((ih _ _ _).2.2.1).trans (((ih _ _ _).2.2.1).symm))
            · exact sublist_match_trade ((ih _ _ _).2.2.2) (fun tr h => execute_trade_some h)
        · next hp => exact ⟨rfl, rfl, rfl, List.Sublist.refl _⟩

/-- C4 (amended): journal failure does not abort or roll back a
submit.  For every journal-outcome oracle, the success flag and the
resulting book (inserts and all fills included) are identical to those
of a run where every journal write succeeds; the only effect of failed
writes is that their trades are silently missing from the returned
trade list.  In particular the call never fails with a persistence
error and the book is never restored to its pre-submit state. -/
theorem c4_journal_failure_keeps_book_mutation (j : List Bool) (b : OrderBook)
    (now : Nat) (oid uid sym : String) (sd : OrderSide) (qt pr : Int) :
    (submit_order j b now oid uid sym sd qt pr).ok =
      (submit_order [] b now oid uid sym sd qt pr).ok ∧
    (submit_order j b now oid uid sym sd qt pr).book =
      (submit_order [] b now oid uid sym sd qt pr).book ∧
    (submit_order j b now oid uid sym sd qt pr).trades.Sublist
      (submit_order [] b now oid uid sym sd qt pr).trades := by
  cases hl : dictLookup b.orders_by_id oid with
  | some o =>
    have h1 : submit_order j b now oid uid sym sd qt pr = ⟨false, [], b, j⟩ := by
      simp [submit_order, OrderBook.add_order, hl]
    have h2 : submit_order [] b now oid uid sym sd qt pr = ⟨false, [], b, []⟩ := by
      simp [submit_order, OrderBook.add_order, hl]
    rw [h1, h2]
    exact ⟨rfl, rfl, List.Sublist.refl _⟩
  | none =>
    cases sd with
    | BUY =>
      simp only [submit_order, OrderBook.add_order, hl, match_order, if_true]
      exact ⟨trivial, (matchBuyLoop_journal _ _ _ _).1, (matchBuyLoop_journal _ _ _ _).2.2.2⟩
    | SELL =>
      simp only [submit_order, OrderBook.add_order, hl, match_order, if_true]
      exact ⟨trivial, (matchSellLoop_journal _ _ _ _).1, (matchSellLoop_journal _ _ _ _).2.2.2⟩

/-! ### C5: market depth, per order and best-first -/

lemma depthLoop_depth_eq : ∀ (c : Nat) (l : List OrderNode),
    (depthLoop c l).1 = ((l.filter (fun o => !o.is_filled)).take c).map
      (fun o => (o.price, o.remaining_quantity)) := by
  intro c l
  induction l generalizing c with
  | nil => cases c <;> simp [depthLoop]
  | cons o rest ih =>
    cases c with
    | zero => simp [depthLoop]
    | succ m =>
      by_cases hf : o.is_filled <;> simp [depthLoop, hf, ih]

/-- C5 (amended): `get_market_depth` returns, per side, one
`(price, remaining_quantity)` pair per live resting order — the first
`levels` unfilled orders in heap (best-first) order, NOT aggregated
per price level — so each side has at most `levels` entries, bid
entries carry non-increasing prices and ask entries non-decreasing
prices, and no entry is a ghost (every entry has positive remaining
quantity). -/
theorem c5_depth_per_live_order_best_first (b : OrderBook) (levels : Nat)
    (hsb : List.Sorted buyLE b.buy_orders) (hss : List.Sorted sellLE b.sell_orders) :
    (b.get_market_depth levels).buy =
      ((b.buy_orders.filter (fun o => !o.is_filled)).take levels).map
        (fun o => (o.price, o.remaining_quantity)) ∧
    (b.get_market_depth levels).sell =
      ((b.sell_orders.filter (fun o => !o.is_filled)).take levels).map
        (fun o => (o.price, o.remaining_quantity)) ∧
    (b.get_market_depth levels).buy.length ≤ levels ∧
    (b.get_market_depth levels).sell.length ≤ levels ∧
    List.Pairwise (fun x y => y.1 ≤ x.1) (b.get_market_depth levels).buy ∧
    List.Pairwise (fun x y => x.1 ≤ y.1) (b.get_market_depth levels).sell ∧
    (∀ e ∈ (b.get_market_depth levels).buy, 0 < e.2) ∧
    (∀ e ∈ (b.get_market_depth levels).sell, 0 < e.2) := by
  have hbuy : (b.get_market_depth levels).buy =
      ((b.buy_orders.filter (fun o => !o.is_filled)).take levels).map
        (fun o => (o.price, o.remaining_quantity)) := depthLoop_depth_eq _ _
  have hsell : (b.get_market_depth levels).sell =
      ((b.sell_orders.filter (fun o => !o.is_filled)).take levels).map
        (fun o => (o.price, o.remaining_quantity)) := depthLoop_depth_eq _ _
  refine ⟨hbuy, hsell, ?_, ?_, ?_, ?_, ?_, ?_⟩
  · rw [hbuy, List.length_map]
    exact List.length_take_le _ _
  · rw [hsell, List.length_map]
    exact List.length_take_le _ _
  · rw [hbuy]
    rw [List.pairwise_map]
    have h1 : List.Pairwise buyLE (b.buy_orders.filter (fun o => !o.is_filled)) :=
      List.Pairwise.filter _ hsb
    have h2 : List.Pairwise buyLE
        ((b.buy_orders.filter (fun o => !o.is_filled)).take levels) :=
      List.Pairwise.sublist (List.take_sublist _ _) h1
    refine h2.imp ?_
    intro a c h
    unfold buyLE at h
    omega
  · rw [hsell]
    rw [List.pairwise_map]
    have h1 : List.Pairwise sellLE (b.sell_orders.filter (fun o => !o.is_filled)) :=
      List.Pairwise.filter _ hss
    have h2 : List.Pairwise sellLE
        ((b.sell_orders.filter (fun o => !o.is_filled)).take levels) :=
      List.Pairwise.sublist (List.take_sublist _ _) h1
    refine h2.imp ?_
    intro a c h
    unfold sellLE at h
    omega
  · rw [hbuy]
    intro e he
    obtain ⟨o, ho, rfl⟩ := List.mem_map.mp he
    have hof : o ∈ b.buy_orders.filter (fun o => !o.is_filled) :=
      List.mem_of_mem_take ho
    have := (List.mem_filter.mp hof).2
    simp only [Bool.not_eq_true'] at this
    exact not_filled_remaining_pos this
  · rw [hsell]
    intro e he
    obtain ⟨o, ho, rfl⟩ := List.mem_map.mp he
    have hof : o ∈ b.sell_orders.filter (fun o => !o.is_filled) :=
      List.mem_of_mem_take ho
    have := (List.mem_filter.mp hof).2
    simp only [Bool.not_eq_true'] at this
    exact not_filled_remaining_pos this

/-- Witness for C5 at the concrete two-sell book: the sell side lists
both orders at price 50 separately. -/
theorem c5_depth_per_live_order_best_first_witness :
    (c5Book.get_market_depth 10).sell =
      ((c5Book.sell_orders.filter (fun o => !o.is_filled)).take 10).map
        (fun o => (o.price, o.remaining_quantity)) :=
  (c5_depth_per_live_order_best_first c5Book 10 (by decide) (by decide)).2.1

/-! ### C1: price-time priority of consumption -/

lemma matchBuyLoop_agg_filled (fuel : Nat) (j : List Bool) (b : OrderBook)
    {agg : OrderNode} (h : agg.is_filled = true) :
    matchBuyLoop fuel j agg b = ⟨[], [], agg, b, j⟩ := by
  cases fuel with
  | zero => rfl
  | succ n =>
    rw [matchBuyLoop]
    simp [h]

lemma matchSellLoop_agg_filled (fuel : Nat) (j : List Bool) (b : OrderBook)
    {agg : OrderNode} (h : agg.is_filled = true) :
    matchSellLoop fuel j agg b = ⟨[], [], agg, b, j⟩ := by
  cases fuel with
  | zero => rfl
  | succ n =>
    rw [matchSellLoop]
    simp [h]

lemma updTs_addFill_price (ts : Nat) (q : Int) (n : OrderNode) :
    (updTs ts (addFill q) n).price = n.price := by
  unfold updTs addFill
  split <;> rfl

lemma updTs_addFill_timestamp (ts : Nat) (q : Int) (n : OrderNode) :
    (updTs ts (addFill q) n).timestamp = n.timestamp := by
  unfold updTs addFill
  split <;> rfl

/-- If the resting top is not fully consumed by the trade, then the
aggressor is (its whole remaining quantity was the minimum). -/
lemma agg_filled_of_top_unfilled {agg top : OrderNode}
    (hnp : (addFill (min agg.remaining_quantity top.remaining_quantity) top).is_filled = false) :
    (addFill (min agg.remaining_quantity top.remaining_quantity) agg).is_filled = true := by
  simp only [OrderNode.is_filled, addFill, OrderNode.remaining_quantity,
    decide_eq_false_iff_not, decide_eq_true_eq, not_le] at hnp ⊢
  omega

lemma sorted_sellLE_map_updTs (ts : Nat) (q : Int) (l : List OrderNode)
    (h : List.Pairwise sellLE l) :
    List.Pairwise sellLE (l.map (updTs ts (addFill q))) := by
  rw [List.pairwise_map]
  refine h.imp ?_
  intro a c hac
  unfold sellLE at hac ⊢
  rw [updTs_addFill_price, updTs_addFill_price,
    updTs_addFill_timestamp, updTs_addFill_timestamp]
  exact hac

lemma sorted_buyLE_map_updTs (ts : Nat) (q : Int) (l : List OrderNode)
    (h : List.Pairwise buyLE l) :
    List.Pairwise buyLE (l.map (updTs ts (addFill q))) := by
  rw [List.pairwise_map]
  refine h.imp ?_
  intro a c hac
  unfold buyLE at hac ⊢
  rw [updTs_addFill_price, updTs_addFill_price,
    updTs_addFill_timestamp, updTs_addFill_timestamp]
  exact hac

lemma tsdist_map_updTs (ts : Nat) (q : Int) (l : List OrderNode)
    (h : List.Pairwise (fun a c => a.timestamp ≠ c.timestamp) l) :
    List.Pairwise (fun a c => a.timestamp ≠ c.timestamp) (l.map (updTs ts (addFill q))) := by
  rw [List.pairwise_map]
  refine h.imp ?_
  intro a c hac
  rw [updTs_addFill_timestamp, updTs_addFill_timestamp]
  exact hac

/-- Resting sells are consumed by `_match_buy_order` in strictly
increasing `(price, timestamp)` order: lowest ask first, and at equal
prices the earlier-accepted (smaller-timestamp) order first. -/
lemma matchBuyLoop_partners_sorted : ∀ (fuel : Nat) (j : List Bool) (agg : OrderNode)
    (b : OrderBook),
    List.Pairwise sellLE b.sell_orders →
    List.Pairwise (fun a c => a.timestamp ≠ c.timestamp) b.sell_orders →
    List.Pairwise sellLT (matchBuyLoop fuel j agg b).partners := by
  intro fuel
  induction fuel with
  | zero => intro j agg b _ _; simp [matchBuyLoop]
  | succ n ih =>
    intro j agg b hsort hdist
    rw [matchBuyLoop]
    split
    · simp
    · next hf =>
      split
      · next hs => simp
      · next top rest hs =>
        rw [hs] at hsort hdist
        have hsortRest := (List.pairwise_cons.mp hsort).2
        have hdistRest := (List.pairwise_cons.mp hdist).2
        have hsortTop := (List.pairwise_cons.mp hsort).1
        have hdistTop := (List.pairwise_cons.mp hdist).1
        split
        · next hp =>
          split
          · next hg =>
            exact ih j agg { b with sell_orders := rest } hsortRest hdistRest
          · next hg =>
            have hf0 : agg.is_filled = false := by
              cases h : agg.is_filled
              · rfl
              · exact absurd h hf
            have hg0 : top.is_filled = false := by
              cases h : top.is_filled
              · rfl
              · exact absurd h hg
            have hq : 0 ≤ min agg.remaining_quantity top.remaining_quantity :=
              le_of_lt (trade_quantity_pos hf0 hg0)
            refine List.pairwise_cons.mpr ⟨?_, ?_⟩
            · intro p hp2
              by_cases hpop : (addFill (min agg.remaining_quantity top.remaining_quantity) top).is_filled
              · obtain ⟨-, -, m, hm, he⟩ :=
                  (matchBuyLoop_spec _ _ _ _).2.2.2.2.1 p hp2
                simp only [hpop, if_true, bookUpdTs, hs, List.map_cons, List.tail_cons] at hm
                obtain ⟨m1, hm1, he1⟩ := exists_evolves_of_mem_map_updTs hq hm
                obtain ⟨m0, hm0, he0⟩ := exists_evolves_of_mem_map_updTs hq hm1
                have hEv : Evolves m0 p := (he0.trans he1).trans he
                have h1 : sellLE top m0 := hsortTop m0 hm0
                have h2 : top.timestamp ≠ m0.timestamp := hdistTop m0 hm0
                obtain ⟨-, -, -, -, e5, e6, -, -⟩ := hEv
                unfold sellLE at h1
                unfold sellLT
                omega
              · have hfil2 : (addFill (min agg.remaining_quantity top.remaining_quantity) agg).is_filled = true := by
                  apply agg_filled_of_top_unfilled
                  cases h : (addFill (min agg.remaining_quantity top.remaining_quantity) top).is_filled
                  · rfl
                  · exact absurd h hpop
                rw [matchBuyLoop_agg_filled _ _ _ hfil2] at hp2
                simp at hp2
            · by_cases hpop : (addFill (min agg.remaining_quantity top.remaining_quantity) top).is_filled
              · apply ih
                · simp only [hpop, if_true, bookUpdTs, hs, List.map_cons, List.tail_cons]
                  exact sorted_sellLE_map_updTs _ _ _ (sorted_sellLE_map_updTs _ _ _ hsortRest)
                · simp only [hpop, if_true, bookUpdTs, hs, List.map_cons, List.tail_cons]
                  exact tsdist_map_updTs _ _ _ (tsdist_map_updTs _ _ _ hdistRest)
              · have hfil2 : (addFill (min agg.remaining_quantity top.remaining_quantity) agg).is_filled = true := by
                  apply agg_filled_of_top_unfilled
                  cases h : (addFill (min agg.remaining_quantity top.remaining_quantity) top).is_filled
                  · rfl
                  · exact absurd h hpop
                rw [matchBuyLoop_agg_filled _ _ _ hfil2]
                simp
        · next hp => simp

/-- Mirror of `matchBuyLoop_partners_sorted`: resting buys are
consumed highest price first, then earliest timestamp. -/
lemma matchSellLoop_partners_sorted : ∀ (fuel : Nat) (j : List Bool) (agg : OrderNode)
    (b : OrderBook),
    List.Pairwise buyLE b.buy_orders →
    List.Pairwise (fun a c => a.timestamp ≠ c.timestamp) b.buy_orders →
    List.Pairwise buyLT (matchSellLoop fuel j agg b).partners := by
  intro fuel
  induction fuel with
  | zero => intro j agg b _ _; simp [matchSellLoop]
  | succ n ih =>
    intro j agg b hsort hdist
    rw [matchSellLoop]
    split
    · simp
    · next hf =>
      split
      · next hs => simp
      · next top rest hs =>
        rw [hs] at hsort hdist
        have hsortRest := (List.pairwise_cons.mp hsort).2
        have hdistRest := (List.pairwise_cons.mp hdist).2
        have hsortTop := (List.pairwise_cons.mp hsort).1
        have hdistTop := (List.pairwise_cons.mp hdist).1
        split
        · next hp =>
          split
          · next hg =>
            exact ih j agg { b with buy_orders := rest } hsortRest hdistRest
          · next hg =>
            have hf0 : agg.is_filled = false := by
              cases h : agg.is_filled
              · rfl
              · exact absurd h hf
            have hg0 : top.is_filled = false := by
              cases h : top.is_filled
              · rfl
              · exact absurd h hg
            have hq : 0 ≤ min agg.remaining_quantity top.remaining_quantity :=
              le_of_lt (trade_quantity_pos hf0 hg0)
            refine List.pairwise_cons.mpr ⟨?_, ?_⟩
            · intro p hp2
              by_cases hpop : (addFill (min agg.remaining_quantity top.remaining_quantity) top).is_filled
              · obtain ⟨-, -, m, hm, he⟩ :=
                  (matchSellLoop_spec _ _ _ _).2.2.2.2.1 p hp2
                simp only [hpop, if_true, bookUpdTs, hs, List.map_cons, List.tail_cons] at hm
                obtain ⟨m1, hm1, he1⟩ := exists_evolves_of_mem_map_updTs hq hm
                obtain ⟨m0, hm0, he0⟩ := exists_evolves_of_mem_map_updTs hq hm1
                have hEv : Evolves m0 p := (he0.trans he1).trans he
                have h1 : buyLE top m0 := hsortTop m0 hm0
                have h2 : top.timestamp ≠ m0.timestamp := hdistTop m0 hm0
                obtain ⟨-, -, -, -, e5, e6, -, -⟩ := hEv
                unfold buyLE at h1
                unfold buyLT
                omega
              · have hfil2 : (addFill (min agg.remaining_quantity top.remaining_quantity) agg).is_filled = true := by
                  apply agg_filled_of_top_unfilled
                  cases h : (addFill (min agg.remaining_quantity top.remaining_quantity) top).is_filled
                  · rfl
                  · exact absurd h hpop
                rw [matchSellLoop_agg_filled _ _ _ hfil2] at hp2
                simp at hp2
            · by_cases hpop : (addFill (min agg.remaining_quantity top.remaining_quantity) top).is_filled
              · apply ih
                · simp only [hpop, if_true, bookUpdTs, hs, List.map_cons, List.tail_cons]
                  exact sorted_buyLE_map_updTs _ _ _ (sorted_buyLE_map_updTs _ _ _ hsortRest)
                · simp only [hpop, if_true, bookUpdTs, hs, List.map_cons, List.tail_cons]
                  exact tsdist_map_updTs _ _ _ (tsdist_map_updTs _ _ _ hdistRest)
              · have hfil2 : (addFill (min agg.remaining_quantity top.remaining_quantity) agg).is_filled = true := by
                  apply agg_filled_of_top_unfilled
                  cases h : (addFill (min agg.remaining_quantity top.remaining_quantity) top).is_filled
                  · rfl
                  · exact absurd h hpop
                rw [matchSellLoop_agg_filled _ _ _ hfil2]
                simp
        · next hp => simp

/-- C1 (confirmed): the matching loop consumes resting orders on the
opposite side in price-time priority.  `partners` is the sequence of
resting orders consumed, in consumption order; on a book whose heaps
are sorted by the heap priority order and whose resting orders carry
distinct acceptance timestamps, any earlier-consumed resting order
strictly precedes any later-consumed one in `(better price, then
smaller timestamp)` order: for a buy aggressor the lower ask is
consumed first (then the earlier acceptance at equal price), for a
sell aggressor the higher bid first. -/
theorem c1_matching_consumes_in_price_time_priority
    (j : List Bool) (agg : OrderNode) (b : OrderBook) :
    (List.Sorted sellLE b.sell_orders →
     List.Pairwise (fun a c => a.timestamp ≠ c.timestamp) b.sell_orders →
     List.Pairwise sellLT (match_buy_order j agg b).partners) ∧
    (List.Sorted buyLE b.buy_orders →
     List.Pairwise (fun a c => a.timestamp ≠ c.timestamp) b.buy_orders →
     List.Pairwise buyLT (match_sell_order j agg b).partners) :=
  ⟨fun hs hd => matchBuyLoop_partners_sorted _ j agg b hs hd,
   fun hs hd => matchSellLoop_partners_sorted _ j agg b hs hd⟩

/-- Book with resting sells s1 10@50 (ts 0) and s2 10@50 (ts 1), for
the C1 witness. -/
def c1Book : OrderBook :=
  let s1 := submit_order [] (emptyBook "X") 0 "s1" "u1" "X" OrderSide.SELL 10 50
  (submit_order [] s1.book 1 "s2" "u2" "X" OrderSide.SELL 10 50).book

/-- Aggressor BUY b3 15@60 that sweeps both resting sells, for the C1
witness. -/
def c1Agg : OrderNode :=
  { order_id := "b3", user_id := "u3", symbol := "X", side := OrderSide.BUY,
    quantity := 15, price := 60, timestamp := 2, filled_quantity := 0 }

/-- Witness for C1: on the concrete two-sell book the consumption
sequence is strictly ordered (s1 at timestamp 0 before s2 at
timestamp 1, same price 50). -/
theorem c1_matching_consumes_in_price_time_priority_witness :
    List.Pairwise sellLT (match_buy_order [] c1Agg c1Book).partners :=
  (c1_matching_consumes_in_price_time_priority [] c1Agg c1Book).1
    (by decide) (by decide)

/-! ### C2: the book is not crossed after submit and cancel -/

/-- Strong form of "not crossed": every live bid is strictly below
every live ask. -/
def NoCross (b : OrderBook) : Prop :=
  ∀ nb ∈ b.buy_orders, ∀ ns ∈ b.sell_orders,
    nb.is_filled = false → ns.is_filled = false → nb.price < ns.price

instance decNoCross (b : OrderBook) : Decidable (NoCross b) := by
  unfold NoCross
  infer_instance

lemma mem_live_of_dropWhile_head : ∀ (l : List OrderNode) (n : OrderNode),
    (l.dropWhile (fun o => o.is_filled)).head? = some n →
    n ∈ l ∧ n.is_filled = false := by
  intro l
  induction l with
  | nil => intro n h; simp [List.dropWhile] at h
  | cons o rest ih =>
    intro n h
    by_cases hf : o.is_filled
    · rw [List.dropWhile_cons_of_pos (by simpa using hf)] at h
      obtain ⟨h1, h2⟩ := ih n h
      exact ⟨List.mem_cons_of_mem _ h1, h2⟩
    · rw [List.dropWhile_cons_of_neg (by simpa using hf)] at h
      simp only [List.head?_cons, Option.some_inj] at h
      subst h
      exact ⟨List.mem_cons_self _ _, by simpa using hf⟩

lemma best_buy_member (b : OrderBook) {p : Int}
    (h : (b.get_best_buy_price).1 = some p) :
    ∃ n ∈ b.buy_orders, n.is_filled = false ∧ n.price = p := by
  replace h : (b.buy_orders.dropWhile (fun o => o.is_filled)).head?.map
      (fun o => o.price) = some p := h
  cases hd : (b.buy_orders.dropWhile (fun o => o.is_filled)).head? with
  | none => rw [hd] at h; simp at h
  | some n =>
    rw [hd] at h
    simp only [Option.map_some', Option.some_inj] at h
    obtain ⟨h1, h2⟩ := mem_live_of_dropWhile_head _ _ hd
    exact ⟨n, h1, h2, h⟩

lemma best_sell_member (b : OrderBook) {p : Int}
    (h : (b.get_best_sell_price).1 = some p) :
    ∃ n ∈ b.sell_orders, n.is_filled = false ∧ n.price = p := by
  replace h : (b.sell_orders.dropWhile (fun o => o.is_filled)).head?.map
      (fun o => o.price) = some p := h
  cases hd : (b.sell_orders.dropWhile (fun o => o.is_filled)).head? with
  | none => rw [hd] at h; simp at h
  | some n =>
    rw [hd] at h
    simp only [Option.map_some', Option.some_inj] at h
    obtain ⟨h1, h2⟩ := mem_live_of_dropWhile_head _ _ hd
    exact ⟨n, h1, h2, h⟩

lemma bestform_of_noCross (b : OrderBook) (h : NoCross b) :
    ∀ pb ps, (b.get_best_buy_price).1 = some pb →
      (b.get_best_sell_price).1 = some ps → pb < ps := by
  intro pb ps hb hs
  obtain ⟨nb, hnb, hnbf, rfl⟩ := best_buy_member b hb
  obtain ⟨ns, hns, hnsf, rfl⟩ := best_sell_member b hs
  exact h nb hnb ns hns hnbf hnsf

lemma updTs_markFilled_live {ts : Nat} {n : OrderNode}
    (h : (updTs ts markFilled n).is_filled = false) :
    updTs ts markFilled n = n := by
  by_cases hts : n.timestamp = ts
  · exfalso
    unfold updTs at h
    rw [if_pos hts] at h
    simp [markFilled, OrderNode.is_filled, OrderNode.remaining_quantity] at h
  · unfold updTs
    rw [if_neg hts]

/-- Cancellation (the lazy-removal mark) cannot cross the book: it
only turns live orders into ghosts. -/
lemma noCross_bookUpdTs_markFilled (ts : Nat) (b b2 : OrderBook) (h : NoCross b)
    (hbuy : b2.buy_orders = b.buy_orders) (hsell : b2.sell_orders = b.sell_orders) :
    NoCross (bookUpdTs ts markFilled b2) := by
  intro nb hnb ns hns hnbf hnsf
  simp only [bookUpdTs, hbuy, hsell] at hnb hns
  obtain ⟨mb, hmb, rfl⟩ := List.mem_map.mp hnb
  obtain ⟨ms, hms, rfl⟩ := List.mem_map.mp hns
  have e1 := updTs_markFilled_live hnbf
  have e2 := updTs_markFilled_live hnsf
  rw [e1] at hnbf ⊢
  rw [e2] at hnsf ⊢
  exact h mb hmb ms hms hnbf hnsf

/-- The sell heap stays sorted through a `_match_buy_order` run. -/
lemma matchBuyLoop_sell_sorted : ∀ (fuel : Nat) (j : List Bool) (agg : OrderNode)
    (b : OrderBook), List.Pairwise sellLE b.sell_orders →
    List.Pairwise sellLE (matchBuyLoop fuel j agg b).book.sell_orders := by
  intro fuel
  induction fuel with
  | zero => intro j agg b h; exact h
  | succ n ih =>
    intro j agg b hsort
    rw [matchBuyLoop]
    split
    · exact hsort
    · next hf =>
      split
      · next hs => exact hsort
      · next top rest hs =>
        rw [hs] at hsort
        split
        · next hp =>
          split
          · next hg =>
            exact ih j agg { b with sell_orders := rest } (List.pairwise_cons.mp hsort).2
          · next hg =>
            apply ih
            by_cases hpop : (addFill (min agg.remaining_quantity top.remaining_quantity) top).is_filled
            · simp only [hpop, if_true, bookUpdTs, hs, List.map_cons, List.tail_cons]
              exact sorted_sellLE_map_updTs _ _ _
                (sorted_sellLE_map_updTs _ _ _ (List.pairwise_cons.mp hsort).2)
            · simp only [hpop, Bool.false_eq_true, if_false, bookUpdTs, hs]
              exact sorted_sellLE_map_updTs _ _ _ (sorted_sellLE_map_updTs _ _ _ hsort)
        · next hp => rw [hs]; exact hsort

/-- The buy heap stays sorted through a `_match_sell_order` run. -/
lemma matchSellLoop_buy_sorted : ∀ (fuel : Nat) (j : List Bool) (agg : OrderNode)
    (b : OrderBook), List.Pairwise buyLE b.buy_orders →
    List.Pairwise buyLE (matchSellLoop fuel j agg b).book.buy_orders := by
  intro fuel
  induction fuel with
  | zero => intro j agg b h; exact h
  | succ n ih =>
    intro j agg b hsort
    rw [matchSellLoop]
    split
    · exact hsort
    · next hf =>
      split
      · next hs => exact hsort
      · next top rest hs =>
        rw [hs] at hsort
        split
        · next hp =>
          split
          · next hg =>
            exact ih j agg { b with buy_orders := rest } (List.pairwise_cons.mp hsort).2
          · next hg =>
            apply ih
            by_cases hpop : (addFill (min agg.remaining_quantity top.remaining_quantity) top).is_filled
            · simp only [hpop, if_true, bookUpdTs, hs, List.map_cons, List.tail_cons]
              exact sorted_buyLE_map_updTs _ _ _
                (sorted_buyLE_map_updTs _ _ _ (List.pairwise_cons.mp hsort).2)
            · simp only [hpop, Bool.false_eq_true, if_false, bookUpdTs, hs]
              exact sorted_buyLE_map_updTs _ _ _ (sorted_buyLE_map_updTs _ _ _ hsort)
        · next hp => rw [hs]; exact hsort

/-- Alias sync: any buy-heap copy of the aggressor object (identified
by its timestamp, which no resting sell shares) carries exactly the
aggressor's running fill and quantity throughout a
`_match_buy_order` run. -/
lemma matchBuyLoop_sync : ∀ (fuel : Nat) (j : List Bool) (agg : OrderNode) (b : OrderBook),
    (∀ s ∈ b.sell_orders, s.timestamp ≠ agg.timestamp) →
    (∀ nb ∈ b.buy_orders, nb.timestamp = agg.timestamp →
       nb.filled_quantity = agg.filled_quantity ∧ nb.quantity = agg.quantity) →
    (∀ nb ∈ (matchBuyLoop fuel j agg b).book.buy_orders,
       nb.timestamp = agg.timestamp →
       nb.filled_quantity = (matchBuyLoop fuel j agg b).agg.filled_quantity ∧
       nb.quantity = (matchBuyLoop fuel j agg b).agg.quantity) := by
  intro fuel
  induction fuel with
  | zero => intro j agg b _ hb; exact hb
  | succ n ih =>
    intro j agg b hsf hb
    rw [matchBuyLoop]
    split
    · exact hb
    · next hf =>
      split
      · next hs => exact hb
      · next top rest hs =>
        have htop : top ∈ b.sell_orders := by rw [hs]; exact List.mem_cons_self _ _
        have htopts : top.timestamp ≠ agg.timestamp := hsf top htop
        split
        · next hp =>
          split
          · next hg =>
            refine ih j agg { b with sell_orders := rest } ?_ hb
            intro s hsm
            exact hsf s (by rw [hs]; exact List.mem_cons_of_mem _ hsm)
          · next hg =>
            apply ih
            · intro s hsm
              by_cases hpop : (addFill (min agg.remaining_quantity top.remaining_quantity) top).is_filled
              · simp only [hpop, if_true, bookUpdTs, hs, List.map_cons, List.tail_cons] at hsm
                obtain ⟨s1, hs1, rfl⟩ := List.mem_map.mp hsm
                obtain ⟨s0, hs0, rfl⟩ := List.mem_map.mp hs1
                rw [updTs_addFill_timestamp, updTs_addFill_timestamp]
                exact hsf s0 (by rw [hs]; exact List.mem_cons_of_mem _ hs0)
              · simp only [hpop, Bool.false_eq_true, if_false, bookUpdTs] at hsm
                obtain ⟨s1, hs1, rfl⟩ := List.mem_map.mp hsm
                obtain ⟨s0, hs0, rfl⟩ := List.mem_map.mp hs1
                rw [updTs_addFill_timestamp, updTs_addFill_timestamp]
                exact hsf s0 hs0
            · intro nb hnb hts
              have hnb2 : nb ∈ ((b.buy_orders.map
                  (updTs agg.timestamp (addFill (min agg.remaining_quantity top.remaining_quantity)))).map
                  (updTs top.timestamp (addFill (min agg.remaining_quantity top.remaining_quantity)))) := by
                by_cases hpop : (addFill (min agg.remaining_quantity top.remaining_quantity) top).is_filled
                · simpa only [hpop, if_true, bookUpdTs] using hnb
                · simpa only [hpop, Bool.false_eq_true, if_false, bookUpdTs] using hnb
              obtain ⟨n1, hn1, rfl⟩ := List.mem_map.mp hnb2
              obtain ⟨n0, hn0, rfl⟩ := List.mem_map.mp hn1
              rw [updTs_addFill_timestamp, updTs_addFill_timestamp] at hts
              have hts2 : n0.timestamp = agg.timestamp := hts
              have hn0agg := hb n0 hn0 hts2
              have e1 : updTs agg.timestamp (addFill (min agg.remaining_quantity top.remaining_quantity)) n0 =
                  addFill (min agg.remaining_quantity top.remaining_quantity) n0 := by
                unfold updTs
                rw [if_pos hts2]
              have e2 : updTs top.timestamp (addFill (min agg.remaining_quantity top.remaining_quantity))
                  (addFill (min agg.remaining_quantity top.remaining_quantity) n0) =
                  addFill (min agg.remaining_quantity top.remaining_quantity) n0 := by
                unfold updTs
                rw [if_neg]
                show ¬ (addFill (min agg.remaining_quantity top.remaining_quantity) n0).timestamp = top.timestamp
                have : (addFill (min agg.remaining_quantity top.remaining_quantity) n0).timestamp = agg.timestamp := hts2
                rw [this]
                exact fun he => htopts he.symm
              rw [e1, e2]
              constructor
              · show n0.filled_quantity + _ = agg.filled_quantity + _
                rw [hn0agg.1]
              · exact hn0agg.2
        · next hp => exact hb

/-- Post-condition of a completed `_match_buy_order` run: the
aggressor ended filled, or the sell heap is exhausted, or its top no
longer crosses the aggressor's price. -/
lemma matchBuyLoop_post : ∀ (fuel : Nat) (j : List Bool) (agg : OrderNode) (b : OrderBook),
    b.sell_orders.length + 2 ≤ fuel →
    (matchBuyLoop fuel j agg b).agg.is_filled = true ∨
    (matchBuyLoop fuel j agg b).book.sell_orders = [] ∨
    (∃ hd tl, (matchBuyLoop fuel j agg b).book.sell_orders = hd :: tl ∧
       agg.price < hd.price) := by
  intro fuel
  induction fuel with
  | zero => intro j agg b hlen; omega
  | succ n ih =>
    intro j agg b hlen
    rw [matchBuyLoop]
    split
    · next hfil => exact Or.inl hfil
    · next hf =>
      split
      · next hs => exact Or.inr (Or.inl hs)
      · next top rest hs =>
        have hlen2 : rest.length + 2 ≤ n := by
          rw [hs] at hlen
          simp only [List.length_cons] at hlen
          omega
        split
        · next hp =>
          split
          · next hg =>
            exact ih j agg { b with sell_orders := rest } hlen2
          · next hg =>
            by_cases hpop : (addFill (min agg.remaining_quantity top.remaining_quantity) top).is_filled
            · have hres := ih
                (execute_trade j agg top (min agg.remaining_quantity top.remaining_quantity) top.price).2
                (addFill (min agg.remaining_quantity top.remaining_quantity) agg)
                (if (addFill (min agg.remaining_quantity top.remaining_quantity) top).is_filled
                 then { bookUpdTs top.timestamp
                          (addFill (min agg.remaining_quantity top.remaining_quantity))
                          (bookUpdTs agg.timestamp
                            (addFill (min agg.remaining_quantity top.remaining_quantity)) b) with
                        sell_orders :=
                          (bookUpdTs top.timestamp
                            (addFill (min agg.remaining_quantity top.remaining_quantity))
                            (bookUpdTs agg.timestamp
                              (addFill (min agg.remaining_quantity top.remaining_quantity))
                              b)).sell_orders.tail }
                 else bookUpdTs top.timestamp
                        (addFill (min agg.remaining_quantity top.remaining_quantity))
                        (bookUpdTs agg.timestamp
                          (addFill (min agg.remaining_quantity top.remaining_quantity)) b))
                (by
                  simp only [hpop, if_true, bookUpdTs, hs, List.map_cons, List.tail_cons,
                    List.length_map]
                  omega)
              exact hres
            · have hfil2 : (addFill (min agg.remaining_quantity top.remaining_quantity) agg).is_filled = true := by
                apply agg_filled_of_top_unfilled
                cases h : (addFill (min agg.remaining_quantity top.remaining_quantity) top).is_filled
                · rfl
                · exact absurd h hpop
              have key : ∀ (o : List Bool) (bk : OrderBook),
                  (matchBuyLoop n o (addFill (min agg.remaining_quantity top.remaining_quantity) agg)
                    bk).agg.is_filled = true := by
                intro o bk
                rw [matchBuyLoop_agg_filled _ _ _ hfil2]
                exact hfil2
              exact Or.inl (key _ _)
        · next hp =>
          refine Or.inr (Or.inr ⟨top, rest, hs, ?_⟩)
          omega

/-- Mirror of `matchBuyLoop_sync` for `_match_sell_order`. -/
lemma matchSellLoop_sync : ∀ (fuel : Nat) (j : List Bool) (agg : OrderNode) (b : OrderBook),
    (∀ s ∈ b.buy_orders, s.timestamp ≠ agg.timestamp) →
    (∀ ns ∈ b.sell_orders, ns.timestamp = agg.timestamp →
       ns.filled_quantity = agg.filled_quantity ∧ ns.quantity = agg.quantity) →
    (∀ ns ∈ (matchSellLoop fuel j agg b).book.sell_orders,
       ns.timestamp = agg.timestamp →
       ns.filled_quantity = (matchSellLoop fuel j agg b).agg.filled_quantity ∧
       ns.quantity = (matchSellLoop fuel j agg b).agg.quantity) := by
  intro fuel
  induction fuel with
  | zero => intro j agg b _ hb; exact hb
  | succ n ih =>
    intro j agg b hsf hb
    rw [matchSellLoop]
    split
    · exact hb
    · next hf =>
      split
      · next hs => exact hb
      · next top rest hs =>
        have htop : top ∈ b.buy_orders := by rw [hs]; exact List.mem_cons_self _ _
        have htopts : top.timestamp ≠ agg.timestamp := hsf top htop
        split
        · next hp =>
          split
          · next hg =>
            refine ih j agg { b with buy_orders := rest } ?_ hb
            intro s hsm
            exact hsf s (by rw [hs]; exact List.mem_cons_of_mem _ hsm)
          · next hg =>
            apply ih
            · intro s hsm
              by_cases hpop : (addFill (min agg.remaining_quantity top.remaining_quantity) top).is_filled
              · simp only [hpop, if_true, bookUpdTs, hs, List.map_cons, List.tail_cons] at hsm
                obtain ⟨s1, hs1, rfl⟩ := List.mem_map.mp hsm
                obtain ⟨s0, hs0, rfl⟩ := List.mem_map.mp hs1
                rw [updTs_addFill_timestamp, updTs_addFill_timestamp]
                exact hsf s0 (by rw [hs]; exact List.mem_cons_of_mem _ hs0)
              · simp only [hpop, Bool.false_eq_true, if_false, bookUpdTs] at hsm
                obtain ⟨s1, hs1, rfl⟩ := List.mem_map.mp hsm
                obtain ⟨s0, hs0, rfl⟩ := List.mem_map.mp hs1
                rw [updTs_addFill_timestamp, updTs_addFill_timestamp]
                exact hsf s0 hs0
            · intro ns hns hts
              have hns2 : ns ∈ ((b.sell_orders.map
                  (updTs agg.timestamp (addFill (min agg.remaining_quantity top.remaining_quantity)))).map
                  (updTs top.timestamp (addFill (min agg.remaining_quantity top.remaining_quantity)))) := by
                by_cases hpop : (addFill (min agg.remaining_quantity top.remaining_quantity) top).is_filled
                · simpa only [hpop, if_true, bookUpdTs] using hns
                · simpa only [hpop, Bool.false_eq_true, if_false, bookUpdTs] using hns
              obtain ⟨n1, hn1, rfl⟩ := List.mem_map.mp hns2
              obtain ⟨n0, hn0, rfl⟩ := List.mem_map.mp hn1
              rw [updTs_addFill_timestamp, updTs_addFill_timestamp] at hts
              have hts2 : n0.timestamp = agg.timestamp := hts
              have hn0agg := hb n0 hn0 hts2
              have e1 : updTs agg.timestamp (addFill (min agg.remaining_quantity top.remaining_quantity)) n0 =
                  addFill (min agg.remaining_quantity top.remaining_quantity) n0 := by
                unfold updTs
                rw [if_pos hts2]
              have e2 : updTs top.timestamp (addFill (min agg.remaining_quantity top.remaining_quantity))
                  (addFill (min agg.remaining_quantity top.remaining_quantity) n0) =
                  addFill (min agg.remaining_quantity top.remaining_quantity) n0 := by
                unfold updTs
                rw [if_neg]
                show ¬ (addFill (min agg.remaining_quantity top.remaining_quantity) n0).timestamp = top.timestamp
                have : (addFill (min agg.remaining_quantity top.remaining_quantity) n0).timestamp = agg.timestamp := hts2
                rw [this]
                exact fun he => htopts he.symm
              rw [e1, e2]
              constructor
              · show n0.filled_quantity + _ = agg.filled_quantity + _
                rw [hn0agg.1]
              · exact hn0agg.2
        · next hp => exact hb

/-- Post-condition of a completed `_match_sell_order` run. -/
lemma matchSellLoop_post : ∀ (fuel : Nat) (j : List Bool) (agg : OrderNode) (b : OrderBook),
    b.buy_orders.length + 2 ≤ fuel →
    (matchSellLoop fuel j agg b).agg.is_filled = true ∨
    (matchSellLoop fuel j agg b).book.buy_orders = [] ∨
    (∃ hd tl, (matchSellLoop fuel j agg b).book.buy_orders = hd :: tl ∧
       hd.price < agg.price) := by
  intro fuel
  induction fuel with
  | zero => intro j agg b hlen; omega
  | succ n ih =>
    intro j agg b hlen
    rw [matchSellLoop]
    split
    · next hfil => exact Or.inl hfil
    · next hf =>
      split
      · next hs => exact Or.inr (Or.inl hs)
      · next top rest hs =>
        have hlen2 : rest.length + 2 ≤ n := by
          rw [hs] at hlen
          simp only [List.length_cons] at hlen
          omega
        split
        · next hp =>
          split
          · next hg =>
            exact ih j agg { b with buy_orders := rest } hlen2
          · next hg =>
            by_cases hpop : (addFill (min agg.remaining_quantity top.remaining_quantity) top).is_filled
            · have hres := ih
                (execute_trade j top agg (min agg.remaining_quantity top.remaining_quantity) top.price).2
                (addFill (min agg.remaining_quantity top.remaining_quantity) agg)
                (if (addFill (min agg.remaining_quantity top.remaining_quantity) top).is_filled
                 then { bookUpdTs top.timestamp
                          (addFill (min agg.remaining_quantity top.remaining_quantity))
                          (bookUpdTs agg.timestamp
                            (addFill (min agg.remaining_quantity top.remaining_quantity)) b) with
                        buy_orders :=
                          (bookUpdTs top.timestamp
                            (addFill (min agg.remaining_quantity top.remaining_quantity))
                            (bookUpdTs agg.timestamp
                              (addFill (min agg.remaining_quantity top.remaining_quantity))
                              b)).buy_orders.tail }
                 else bookUpdTs top.timestamp
                        (addFill (min agg.remaining_quantity top.remaining_quantity))
                        (bookUpdTs agg.timestamp
                          (addFill (min agg.remaining_quantity top.remaining_quantity)) b))
                (by
                  simp only [hpop, if_true, bookUpdTs, hs, List.map_cons, List.tail_cons,
                    List.length_map]
                  omega)
              exact hres
            · have hfil2 : (addFill (min agg.remaining_quantity top.remaining_quantity) agg).is_filled = true := by
                apply agg_filled_of_top_unfilled
                cases h : (addFill (min agg.remaining_quantity top.remaining_quantity) top).is_filled
                · rfl
                · exact absurd h hpop
              have key : ∀ (o : List Bool) (bk : OrderBook),
                  (matchSellLoop n o (addFill (min agg.remaining_quantity top.remaining_quantity) agg)
                    bk).agg.is_filled = true := by
                intro o bk
                rw [matchSellLoop_agg_filled _ _ _ hfil2]
                exact hfil2
              exact Or.inl (key _ _)
        · next hp =>
          refine Or.inr (Or.inr ⟨top, rest, hs, ?_⟩)
          omega

/-- A `_match_buy_order` run cannot cross the book: every live bid
left in the book is strictly below every live ask, provided every
non-aggressor bid already was, the sell heap is sorted, and aggressor
copies (identified by the aggressor's fresh timestamp) carry the
aggressor's price and fill. -/
lemma noCross_match_buy_order (j : List Bool) (node : OrderNode) (b : OrderBook)
    (hss : List.Pairwise sellLE b.sell_orders)
    (hfs : ∀ s ∈ b.sell_orders, s.timestamp ≠ node.timestamp)
    (hinit : ∀ nb ∈ b.buy_orders, nb.timestamp = node.timestamp →
       nb.filled_quantity = node.filled_quantity ∧ nb.quantity = node.quantity)
    (hpr : ∀ nb ∈ b.buy_orders, nb.timestamp = node.timestamp → nb.price = node.price)
    (hnc : ∀ nb ∈ b.buy_orders, ∀ ns ∈ b.sell_orders,
       nb.is_filled = false → ns.is_filled = false →
       nb.timestamp ≠ node.timestamp → nb.price < ns.price) :
    NoCross (match_buy_order j node b).book := by
  intro nb hnb ns hns hnbf hnsf
  obtain ⟨ms, hms, hems⟩ := (matchBuyLoop_spec _ _ _ _).2.2.1 ns hns
  obtain ⟨mb, hmb, hemb⟩ := (matchBuyLoop_spec _ _ _ _).2.2.2.1 nb hnb
  have hmsf : ms.is_filled = false := hems.not_filled hnsf
  have hmbf : mb.is_filled = false := hemb.not_filled hnbf
  have hpns : ms.price = ns.price := hems.2.2.2.2.1
  have hpnb : mb.price = nb.price := hemb.2.2.2.2.1
  have htsnb : mb.timestamp = nb.timestamp := hemb.2.2.2.2.2.1
  by_cases hts : mb.timestamp = node.timestamp
  · have hntb : nb.timestamp = node.timestamp := htsnb ▸ hts
    have hsync := matchBuyLoop_sync (b.sell_orders.length + 2) j node b hfs hinit nb hnb hntb
    have hfinlive :
        (matchBuyLoop (b.sell_orders.length + 2) j node b).agg.is_filled = false := by
      simp only [OrderNode.is_filled, OrderNode.remaining_quantity,
        decide_eq_false_iff_not, not_le] at hnbf ⊢
      omega
    rcases matchBuyLoop_post (b.sell_orders.length + 2) j node b (le_refl _) with
      hcase | hcase | ⟨hd, tl, heq, hlt⟩
    · rw [hcase] at hfinlive
      simp at hfinlive
    · have hns2 : ns ∈ (matchBuyLoop (b.sell_orders.length + 2) j node b).book.sell_orders := hns
      rw [hcase] at hns2
      simp at hns2
    · have hns2 : ns ∈ (matchBuyLoop (b.sell_orders.length + 2) j node b).book.sell_orders := hns
      have hsorted := matchBuyLoop_sell_sorted (b.sell_orders.length + 2) j node b hss
      rw [heq] at hns2 hsorted
      have hdle : hd.price ≤ ns.price := by
        rcases List.mem_cons.mp hns2 with rfl | hmem
        · exact le_refl _
        · have := (List.pairwise_cons.mp hsorted).1 ns hmem
          unfold sellLE at this
          omega
      have hnbp : nb.price = node.price := by
        rw [← hpnb]
        exact hpr mb hmb hts
      omega
  · have h1 := hnc mb hmb ms hms hmbf hmsf hts
    omega

/-- Mirror of `noCross_match_buy_order` for `_match_sell_order`. -/
lemma noCross_match_sell_order (j : List Bool) (node : OrderNode) (b : OrderBook)
    (hsb : List.Pairwise buyLE b.buy_orders)
    (hfb : ∀ s ∈ b.buy_orders, s.timestamp ≠ node.timestamp)
    (hinit : ∀ ns ∈ b.sell_orders, ns.timestamp = node.timestamp →
       ns.filled_quantity = node.filled_quantity ∧ ns.quantity = node.quantity)
    (hpr : ∀ ns ∈ b.sell_orders, ns.timestamp = node.timestamp → ns.price = node.price)
    (hnc : ∀ nb ∈ b.buy_orders, ∀ ns ∈ b.sell_orders,
       nb.is_filled = false → ns.is_filled = false →
       ns.timestamp ≠ node.timestamp → nb.price < ns.price) :
    NoCross (match_sell_order j node b).book := by
  intro nb hnb ns hns hnbf hnsf
  obtain ⟨mb, hmb, hemb⟩ := (matchSellLoop_spec _ _ _ _).2.2.1 nb hnb
  obtain ⟨ms, hms, hems⟩ := (matchSellLoop_spec _ _ _ _).2.2.2.1 ns hns
  have hmsf : ms.is_filled = false := hems.not_filled hnsf
  have hmbf : mb.is_filled = false := hemb.not_filled hnbf
  have hpns : ms.price = ns.price := hems.2.2.2.2.1
  have hpnb : mb.price = nb.price := hemb.2.2.2.2.1
  have htsns : ms.timestamp = ns.timestamp := hems.2.2.2.2.2.1
  by_cases hts : ms.timestamp = node.timestamp
  · have hnts : ns.timestamp = node.timestamp := htsns ▸ hts
    have hsync := matchSellLoop_sync (b.buy_orders.length + 2) j node b hfb hinit ns hns hnts
    have hfinlive :
        (matchSellLoop (b.buy_orders.length + 2) j node b).agg.is_filled = false := by
      simp only [OrderNode.is_filled, OrderNode.remaining_quantity,
        decide_eq_false_iff_not, not_le] at hnsf ⊢
      omega
    rcases matchSellLoop_post (b.buy_orders.length + 2) j node b (le_refl _) with
      hcase | hcase | ⟨hd, tl, heq, hlt⟩
    · rw [hcase] at hfinlive
      simp at hfinlive
    · have hnb2 : nb ∈ (matchSellLoop (b.buy_orders.length + 2) j node b).book.buy_orders := hnb
      rw [hcase] at hnb2
      simp at hnb2
    · have hnb2 : nb ∈ (matchSellLoop (b.buy_orders.length + 2) j node b).book.buy_orders := hnb
      have hsorted := matchSellLoop_buy_sorted (b.buy_orders.length + 2) j node b hsb
      rw [heq] at hnb2 hsorted
      have hdle : nb.price ≤ hd.price := by
        rcases List.mem_cons.mp hnb2 with rfl | hmem
        · exact le_refl _
        · have := (List.pairwise_cons.mp hsorted).1 nb hmem
          unfold buyLE at this
          omega
      have hnsp : ns.price = node.price := by
        rw [← hpns]
        exact hpr ms hms hts
      omega
  · have h1 := hnc mb hmb ms hms hmbf hmsf hts
    omega

/-- C2 (amended): submit and cancel never leave a crossed book — on a
well-formed book (heaps sorted, acceptance timestamps fresh and
distinct) that is not crossed, after any `submit_order` and after any
`remove_order` either best price is absent or
`best_bid < best_ask`.  (`modify_order` does not re-run matching and
can cross the book; see the counterexample.) -/
theorem c2_submit_and_cancel_preserve_uncrossed (j : List Bool) (b : OrderBook)
    (now : Nat) (oid uid sym : String) (sd : OrderSide) (qt pr : Int)
    (hsb : List.Sorted buyLE b.buy_orders)
    (hss : List.Sorted sellLE b.sell_orders)
    (hfb : ∀ n ∈ b.buy_orders, n.timestamp ≠ now)
    (hfs : ∀ n ∈ b.sell_orders, n.timestamp ≠ now)
    (hnc : NoCross b) :
    (∀ pb ps,
       ((submit_order j b now oid uid sym sd qt pr).book.get_best_buy_price).1 = some pb →
       ((submit_order j b now oid uid sym sd qt pr).book.get_best_sell_price).1 = some ps →
       pb < ps) ∧
    (∀ id pb ps,
       (((b.remove_order id).2).get_best_buy_price).1 = some pb →
       (((b.remove_order id).2).get_best_sell_price).1 = some ps →
       pb < ps) := by
  constructor
  · cases hl : dictLookup b.orders_by_id oid with
    | some o =>
      have hres : (submit_order j b now oid uid sym sd qt pr).book = b := by
        simp [submit_order, OrderBook.add_order, hl]
      rw [hres]
      exact bestform_of_noCross b hnc
    | none =>
      cases sd with
      | BUY =>
        have hres : (submit_order j b now oid uid sym OrderSide.BUY qt pr).book =
            (match_buy_order j
              { order_id := oid, user_id := uid, symbol := sym, side := OrderSide.BUY,
                quantity := qt, price := pr, timestamp := now, filled_quantity := 0 }
              { b with
                orders_by_id := dictSet b.orders_by_id oid
                  { order_id := oid, user_id := uid, symbol := sym, side := OrderSide.BUY,
                    quantity := qt, price := pr, timestamp := now, filled_quantity := 0 }
                buy_orders := heappushBuy b.buy_orders
                  { order_id := oid, user_id := uid, symbol := sym, side := OrderSide.BUY,
                    quantity := qt, price := pr, timestamp := now, filled_quantity := 0 } }).book := by
          simp [submit_order, OrderBook.add_order, hl, match_order]
        rw [hres]
        apply bestform_of_noCross
        apply noCross_match_buy_order
        · exact hss
        · exact hfs
        · intro nb hnb hts
          rcases (List.mem_orderedInsert buyLE).mp hnb with rfl | hnb2
          · exact ⟨rfl, rfl⟩
          · exact absurd hts (hfb nb hnb2)
        · intro nb hnb hts
          rcases (List.mem_orderedInsert buyLE).mp hnb with rfl | hnb2
          · rfl
          · exact absurd hts (hfb nb hnb2)
        · intro nb hnb ns hns hnbf hnsf hts
          rcases (List.mem_orderedInsert buyLE).mp hnb with rfl | hnb2
          · exact absurd rfl hts
          · exact hnc nb hnb2 ns hns hnbf hnsf
      | SELL =>
        have hres : (submit_order j b now oid uid sym OrderSide.SELL qt pr).book =
            (match_sell_order j
              { order_id := oid, user_id := uid, symbol := sym, side := OrderSide.SELL,
                quantity := qt, price := pr, timestamp := now, filled_quantity := 0 }
              { b with
                orders_by_id := dictSet b.orders_by_id oid
                  { order_id := oid, user_id := uid, symbol := sym, side := OrderSide.SELL,
                    quantity := qt, price := pr, timestamp := now, filled_quantity := 0 }
                sell_orders := heappushSell b.sell_orders
                  { order_id := oid, user_id := uid, symbol := sym, side := OrderSide.SELL,
                    quantity := qt, price := pr, timestamp := now, filled_quantity := 0 } }).book := by
          simp [submit_order, OrderBook.add_order, hl, match_order]
        rw [hres]
        apply bestform_of_noCross
        apply noCross_match_sell_order
        · exact hsb
        · exact hfb
        · intro ns hns hts
          rcases (List.mem_orderedInsert sellLE).mp hns with rfl | hns2
          · exact ⟨rfl, rfl⟩
          · exact absurd hts (hfs ns hns2)
        · intro ns hns hts
          rcases (List.mem_orderedInsert sellLE).mp hns with rfl | hns2
          · rfl
          · exact absurd hts (hfs ns hns2)
        · intro nb hnb ns hns hnbf hnsf hts
          rcases (List.mem_orderedInsert sellLE).mp hns with rfl | hns2
          · exact absurd rfl hts
          · exact hnc nb hnb ns hns2 hnbf hnsf
  · intro id
    cases hl : dictLookup b.orders_by_id id with
    | none =>
      have hres : (b.remove_order id).2 = b := by
        simp [OrderBook.remove_order, hl]
      rw [hres]
      exact bestform_of_noCross b hnc
    | some o =>
      have hres : (b.remove_order id).2 =
          bookUpdTs o.timestamp markFilled
            { b with orders_by_id := dictErase b.orders_by_id id } := by
        simp [OrderBook.remove_order, hl]
      rw [hres]
      exact bestform_of_noCross _
        (noCross_bookUpdTs_markFilled o.timestamp b _ hnc rfl rfl)

/-- Witness for C2: on the concrete one-bid book (b1 5@100 resting),
submitting a crossing sell and cancelling each keep the book
uncrossed. -/
theorem c2_submit_and_cancel_preserve_uncrossed_witness :
    (∀ pb ps,
       ((submit_order [] (submit_order [] (emptyBook "X") 0 "b1" "u1" "X" OrderSide.BUY 5 100).book
          1 "s1" "u2" "X" OrderSide.SELL 5 90).book.get_best_buy_price).1 = some pb →
       ((submit_order [] (submit_order [] (emptyBook "X") 0 "b1" "u1" "X" OrderSide.BUY 5 100).book
          1 "s1" "u2" "X" OrderSide.SELL 5 90).book.get_best_sell_price).1 = some ps →
       pb < ps) ∧
    (∀ id pb ps,
       ((((submit_order [] (emptyBook "X") 0 "b1" "u1" "X" OrderSide.BUY 5 100).book.remove_order
          id).2).get_best_buy_price).1 = some pb →
       ((((submit_order [] (emptyBook "X") 0 "b1" "u1" "X" OrderSide.BUY 5 100).book.remove_order
          id).2).get_best_sell_price).1 = some ps →
       pb < ps) :=
  c2_submit_and_cancel_preserve_uncrossed []
    (submit_order [] (emptyBook "X") 0 "b1" "u1" "X" OrderSide.BUY 5 100).book
    1 "s1" "u2" "X" OrderSide.SELL 5 90
    (by decide) (by decide) (by decide) (by decide) (by decide)

/-! ### C9: conservation of filled quantity over submit-only histories -/

/-- Number of id-index entries whose node has the given creation
timestamp and side. -/
def countTsSide (d : List (String × OrderNode)) (ts : Nat) (sd : OrderSide) : Nat :=
  (d.filter (fun p => decide (p.2.timestamp = ts) && decide (p.2.side = sd))).length

lemma updTs_addFill_side (ts : Nat) (q : Int) (n : OrderNode) :
    (updTs ts (addFill q) n).side = n.side := by
  unfold updTs addFill
  split <;> rfl

lemma countTsSide_mapUpd (d : List (String × OrderNode)) (ts0 : Nat) (q : Int)
    (ts : Nat) (sd : OrderSide) :
    countTsSide (d.map (fun p => (p.1, updTs ts0 (addFill q) p.2))) ts sd =
    countTsSide d ts sd := by
  induction d with
  | nil => rfl
  | cons p rest ih =>
    simp only [countTsSide, List.map_cons, List.filter_cons] at ih ⊢
    rw [updTs_addFill_timestamp, updTs_addFill_side]
    split <;> simp only [List.length_cons, ih]

lemma countTsSide_append (d1 d2 : List (String × OrderNode)) (ts : Nat) (sd : OrderSide) :
    countTsSide (d1 ++ d2) ts sd = countTsSide d1 ts sd + countTsSide d2 ts sd := by
  simp [countTsSide, List.filter_append]

lemma filledSum_append (sd : OrderSide) (d1 d2 : List (String × OrderNode)) :
    filledSum sd (d1 ++ d2) = filledSum sd d1 + filledSum sd d2 := by
  simp [filledSum]

lemma dictSet_not_mem (d : List (String × OrderNode)) (k : String) (v : OrderNode)
    (h : dictLookup d k = none) : dictSet d k v = d ++ [(k, v)] := by
  induction d with
  | nil => rfl
  | cons p rest ih =>
    obtain ⟨k1, v1⟩ := p
    simp only [dictLookup] at h
    by_cases hk : k1 = k
    · rw [hk] at h
      simp at h
    · simp only [dictSet, hk, if_false]
      rw [ih (by simpa [hk] using h)]
      rfl

lemma filledSum_cons (sd : OrderSide) (p : String × OrderNode)
    (rest : List (String × OrderNode)) :
    filledSum sd (p :: rest) =
    (if p.2.side = sd then p.2.filled_quantity else 0) + filledSum sd rest := by
  simp [filledSum]

lemma countTsSide_cons (p : String × OrderNode) (rest : List (String × OrderNode))
    (ts : Nat) (sd : OrderSide) :
    countTsSide (p :: rest) ts sd =
    (if p.2.timestamp = ts ∧ p.2.side = sd then 1 else 0) + countTsSide rest ts sd := by
  by_cases hts : p.2.timestamp = ts
  all_goals by_cases hsd : p.2.side = sd
  all_goals simp [countTsSide, List.filter_cons, hts, hsd]
  all_goals omega

/-- If no `(ts, sd)` entry exists, the `sd` filled sum is unchanged by
the aliased update at `ts` (other-side entries may be updated but do
not contribute to this side's sum). -/
lemma filledSum_mapUpd_zero (d : List (String × OrderNode)) (ts : Nat) (q : Int)
    (sd : OrderSide) (h : countTsSide d ts sd = 0) :
    filledSum sd (d.map (fun p => (p.1, updTs ts (addFill q) p.2))) =
    filledSum sd d := by
  induction d with
  | nil => rfl
  | cons p rest ih =>
    rw [countTsSide_cons] at h
    have hrest : countTsSide rest ts sd = 0 := by omega
    have hhead : ¬ (p.2.timestamp = ts ∧ p.2.side = sd) := by
      by_contra hc
      rw [if_pos hc] at h
      omega
    simp only [List.map_cons]
    rw [filledSum_cons, filledSum_cons, ih hrest]
    by_cases hts : p.2.timestamp = ts
    · have hsd : ¬ p.2.side = sd := fun hc => hhead ⟨hts, hc⟩
      have e2 : (updTs ts (addFill q) p.2).side = p.2.side := updTs_addFill_side _ _ _
      rw [if_neg (by rw [e2]; exact hsd), if_neg hsd]
    · have e1 : updTs ts (addFill q) p.2 = p.2 := by
        unfold updTs
        rw [if_neg hts]
      rw [e1]

/-- Updating the unique `(ts, sd)` entry adds `q` to that side's
filled sum. -/
lemma filledSum_mapUpd_one (d : List (String × OrderNode)) (ts : Nat) (q : Int)
    (sd : OrderSide) (h : countTsSide d ts sd = 1) :
    filledSum sd (d.map (fun p => (p.1, updTs ts (addFill q) p.2))) =
    filledSum sd d + q := by
  induction d with
  | nil => simp [countTsSide] at h
  | cons p rest ih =>
    rw [countTsSide_cons] at h
    simp only [List.map_cons]
    rw [filledSum_cons, filledSum_cons]
    by_cases hhead : p.2.timestamp = ts ∧ p.2.side = sd
    · have hrest : countTsSide rest ts sd = 0 := by
        rw [if_pos hhead] at h
        omega
      have e1 : updTs ts (addFill q) p.2 = addFill q p.2 := by
        unfold updTs
        rw [if_pos hhead.1]
      rw [e1, filledSum_mapUpd_zero rest ts q sd hrest]
      have e2 : (addFill q p.2).side = p.2.side := rfl
      rw [show (if (addFill q p.2).side = sd then (addFill q p.2).filled_quantity else 0) =
          (if p.2.side = sd then (addFill q p.2).filled_quantity else 0) from by rw [e2]]
      rw [if_pos hhead.2, if_pos hhead.2]
      have e3 : (addFill q p.2).filled_quantity = p.2.filled_quantity + q := rfl
      rw [e3]
      ring
    · have hrest : countTsSide rest ts sd = 1 := by
        rw [if_neg hhead] at h
        omega
      rw [ih hrest]
      by_cases hts : p.2.timestamp = ts
      · have hsd : ¬ p.2.side = sd := fun hc => hhead ⟨hts, hc⟩
        have e2 : (updTs ts (addFill q) p.2).side = p.2.side := updTs_addFill_side _ _ _
        rw [if_neg (by rw [e2]; exact hsd), if_neg hsd]
        ring
      · have e1 : updTs ts (addFill q) p.2 = p.2 := by
          unfold updTs
          rw [if_neg hts]
        rw [e1]
        ring

/-- Matching never changes how many id-index entries exist per
`(timestamp, side)` — it only adjusts fill quantities. -/
lemma matchBuyLoop_counts : ∀ (fuel : Nat) (j : List Bool) (agg : OrderNode) (b : OrderBook)
    (ts : Nat) (sd : OrderSide),
    countTsSide (matchBuyLoop fuel j agg b).book.orders_by_id ts sd =
    countTsSide b.orders_by_id ts sd := by
  intro fuel
  induction fuel with
  | zero => intro j agg b ts sd; rfl
  | succ n ih =>
    intro j agg b ts sd
    rw [matchBuyLoop]
    split
    · rfl
    · next hf =>
      split
      · next hs => rfl
      · next top rest hs =>
        split
        · next hp =>
          split
          · next hg => exact ih j agg { b with sell_orders := rest } ts sd
          · next hg =>
            refine (ih _ _ _ ts sd).trans ?_
            by_cases hpop : (addFill (min agg.remaining_quantity top.remaining_quantity) top).is_filled
            · simp only [hpop, if_true, bookUpdTs]
              rw [countTsSide_mapUpd, countTsSide_mapUpd]
            · simp only [hpop, Bool.false_eq_true, if_false, bookUpdTs]
              rw [countTsSide_mapUpd, countTsSide_mapUpd]
        · next hp => rfl

/-- Mirror of `matchBuyLoop_counts`. -/
lemma matchSellLoop_counts : ∀ (fuel : Nat) (j : List Bool) (agg : OrderNode) (b : OrderBook)
    (ts : Nat) (sd : OrderSide),
    countTsSide (matchSellLoop fuel j agg b).book.orders_by_id ts sd =
    countTsSide b.orders_by_id ts sd := by
  intro fuel
  induction fuel with
  | zero => intro j agg b ts sd; rfl
  | succ n ih =>
    intro j agg b ts sd
    rw [matchSellLoop]
    split
    · rfl
    · next hf =>
      split
      · next hs => rfl
      · next top rest hs =>
        split
        · next hp =>
          split
          · next hg => exact ih j agg { b with buy_orders := rest } ts sd
          · next hg =>
            refine (ih _ _ _ ts sd).trans ?_
            by_cases hpop : (addFill (min agg.remaining_quantity top.remaining_quantity) top).is_filled
            · simp only [hpop, if_true, bookUpdTs]
              rw [countTsSide_mapUpd, countTsSide_mapUpd]
            · simp only [hpop, Bool.false_eq_true, if_false, bookUpdTs]
              rw [countTsSide_mapUpd, countTsSide_mapUpd]
        · next hp => rfl

/-- With an all-healthy journal oracle every commit succeeds: the
trade is returned and the remaining oracle is still all-healthy. -/
lemma execute_trade_all_true {j : List Bool} {bo so : OrderNode} {q p : Int}
    (h : ∀ x ∈ j, x = true) :
    (execute_trade j bo so q p).1 =
      some { buy_order_id := bo.order_id, sell_order_id := so.order_id,
             symbol := bo.symbol, quantity := q, price := p } ∧
    (∀ x ∈ (execute_trade j bo so q p).2, x = true) := by
  cases j with
  | nil => exact ⟨rfl, by simp [execute_trade]⟩
  | cons ok rest =>
    have hok : ok = true := h ok (List.mem_cons_self _ _)
    subst hok
    refine ⟨by simp [execute_trade], ?_⟩
    intro x hx
    exact h x (List.mem_cons_of_mem _ hx)

lemma tradeVolume_cons (t : Trade) (ts : List Trade) :
    tradeVolume (t :: ts) = t.quantity + tradeVolume ts := by
  simp [tradeVolume]

lemma sums_exit (sd : OrderSide) (d : List (String × OrderNode)) :
    filledSum sd d = filledSum sd d + tradeVolume [] := by
  simp [tradeVolume]

lemma trade_mk_quantity (a b c : String) (q p : Int) :
    ({ buy_order_id := a, sell_order_id := b, symbol := c,
       quantity := q, price := p } : Trade).quantity = q := rfl

/-- Fill accounting of one `_match_buy_order` run with a healthy
journal: each trade adds its quantity to exactly one buy-side and one
sell-side id-index entry, so both side sums grow by exactly the
returned trade volume. -/
lemma matchBuyLoop_sums : ∀ (fuel : Nat) (j : List Bool) (agg : OrderNode) (b : OrderBook),
    (∀ x ∈ j, x = true) →
    countTsSide b.orders_by_id agg.timestamp OrderSide.BUY = 1 →
    countTsSide b.orders_by_id agg.timestamp OrderSide.SELL = 0 →
    (∀ n ∈ b.sell_orders, n.is_filled = false →
       countTsSide b.orders_by_id n.timestamp OrderSide.SELL = 1 ∧
       countTsSide b.orders_by_id n.timestamp OrderSide.BUY = 0) →
    filledSum OrderSide.BUY (matchBuyLoop fuel j agg b).book.orders_by_id =
      filledSum OrderSide.BUY b.orders_by_id +
        tradeVolume (matchBuyLoop fuel j agg b).trades ∧
    filledSum OrderSide.SELL (matchBuyLoop fuel j agg b).book.orders_by_id =
      filledSum OrderSide.SELL b.orders_by_id +
        tradeVolume (matchBuyLoop fuel j agg b).trades := by
  intro fuel
  induction fuel with
  | zero =>
    intro j agg b _ _ _ _
    constructor <;> simp [matchBuyLoop, tradeVolume]
  | succ n ih =>
    intro j agg b hall hA hB hS
    rw [matchBuyLoop]
    split
    · exact ⟨sums_exit _ _, sums_exit _ _⟩
    · next hf =>
      split
      · next hs => exact ⟨sums_exit _ _, sums_exit _ _⟩
      · next top rest hs =>
        split
        · next hp =>
          split
          · next hg =>
            refine ih j agg { b with sell_orders := rest } hall hA hB ?_
            intro m hm hmf
            exact hS m (by rw [hs]; exact List.mem_cons_of_mem _ hm) hmf
          · next hg =>
            have hf0 : agg.is_filled = false := by
              cases h : agg.is_filled
              · rfl
              · exact absurd h hf
            have hg0 : top.is_filled = false := by
              cases h : top.is_filled
              · rfl
              · exact absurd h hg
            have hq : 0 ≤ min agg.remaining_quantity top.remaining_quantity :=
              le_of_lt (trade_quantity_pos hf0 hg0)
            have htopmem : top ∈ b.sell_orders := by
              rw [hs]; exact List.mem_cons_self _ _
            obtain ⟨hTS, hTB⟩ := hS top htopmem hg0
            set q := min agg.remaining_quantity top.remaining_quantity with hqdef
            set td := execute_trade j agg top q top.price with htd
            set buy2 := addFill q agg with hbuy2
            set b2 := bookUpdTs top.timestamp (addFill q)
              (bookUpdTs agg.timestamp (addFill q) b) with hb2
            set b3 := if (addFill q top).is_filled
              then { b2 with sell_orders := b2.sell_orders.tail } else b2 with hb3
            obtain ⟨htd1, hall2⟩ := @execute_trade_all_true j agg top q top.price hall
            have hdict : b3.orders_by_id =
                ((b.orders_by_id.map
                  (fun p => (p.1, updTs agg.timestamp (addFill q) p.2))).map
                  (fun p => (p.1, updTs top.timestamp (addFill q) p.2))) := by
              rw [hb3]
              by_cases hpop : (addFill q top).is_filled <;>
                simp [hpop, hb2, bookUpdTs]
            have hA2 : countTsSide b3.orders_by_id buy2.timestamp OrderSide.BUY = 1 := by
              show countTsSide b3.orders_by_id agg.timestamp OrderSide.BUY = 1
              rw [hdict, countTsSide_mapUpd, countTsSide_mapUpd]
              exact hA
            have hB2 : countTsSide b3.orders_by_id buy2.timestamp OrderSide.SELL = 0 := by
              show countTsSide b3.orders_by_id agg.timestamp OrderSide.SELL = 0
              rw [hdict, countTsSide_mapUpd, countTsSide_mapUpd]
              exact hB
            have hS2 : ∀ m ∈ b3.sell_orders, m.is_filled = false →
                countTsSide b3.orders_by_id m.timestamp OrderSide.SELL = 1 ∧
                countTsSide b3.orders_by_id m.timestamp OrderSide.BUY = 0 := by
              intro m hm hmf
              have hmb2 : m ∈ b2.sell_orders := by
                rw [hb3] at hm
                by_cases hpop : (addFill q top).is_filled
                · simp only [hpop, if_true] at hm
                  exact List.tail_subset _ hm
                · simp only [hpop, Bool.false_eq_true, if_false] at hm
                  exact hm
              rw [hb2] at hmb2
              simp only [bookUpdTs] at hmb2
              obtain ⟨m1, hm1, he1⟩ := exists_evolves_of_mem_map_updTs hq hmb2
              obtain ⟨m0, hm0, he0⟩ := exists_evolves_of_mem_map_updTs hq hm1
              have hev : Evolves m0 m := he0.trans he1
              have hm0f : m0.is_filled = false := hev.not_filled hmf
              have htseq : m0.timestamp = m.timestamp := hev.2.2.2.2.2.1
              rw [hdict]
              simp only [countTsSide_mapUpd]
              rw [← htseq]
              exact hS m0 hm0 hm0f
            obtain ⟨k1, k2⟩ := ih td.2 buy2 b3 hall2 hA2 hB2 hS2
            have hd1 : filledSum OrderSide.BUY b3.orders_by_id =
                filledSum OrderSide.BUY b.orders_by_id + q := by
              rw [hdict]
              rw [filledSum_mapUpd_zero _ _ _ _ (by rw [countTsSide_mapUpd]; exact hTB)]
              exact filledSum_mapUpd_one _ _ _ _ hA
            have hd2 : filledSum OrderSide.SELL b3.orders_by_id =
                filledSum OrderSide.SELL b.orders_by_id + q := by
              rw [hdict]
              rw [filledSum_mapUpd_one _ _ _ _ (by rw [countTsSide_mapUpd]; exact hTS)]
              rw [filledSum_mapUpd_zero _ _ _ _ hB]
            constructor
            · show filledSum OrderSide.BUY (matchBuyLoop n td.2 buy2 b3).book.orders_by_id =
                filledSum OrderSide.BUY b.orders_by_id +
                  tradeVolume (match td.1 with
                    | some t => t :: (matchBuyLoop n td.2 buy2 b3).trades
                    | none => (matchBuyLoop n td.2 buy2 b3).trades)
              rw [htd1, k1, hd1, tradeVolume_cons, trade_mk_quantity]
              omega
            · show filledSum OrderSide.SELL (matchBuyLoop n td.2 buy2 b3).book.orders_by_id =
                filledSum OrderSide.SELL b.orders_by_id +
                  tradeVolume (match td.1 with
                    | some t => t :: (matchBuyLoop n td.2 buy2 b3).trades
                    | none => (matchBuyLoop n td.2 buy2 b3).trades)
              rw [htd1, k2, hd2, tradeVolume_cons, trade_mk_quantity]
              omega
        · next hp => exact ⟨sums_exit _ _, sums_exit _ _⟩

/-- Mirror of `matchBuyLoop_sums` for `_match_sell_order`. -/
lemma matchSellLoop_sums : ∀ (fuel : Nat) (j : List Bool) (agg : OrderNode) (b : OrderBook),
    (∀ x ∈ j, x = true) →
    countTsSide b.orders_by_id agg.timestamp OrderSide.SELL = 1 →
    countTsSide b.orders_by_id agg.timestamp OrderSide.BUY = 0 →
    (∀ n ∈ b.buy_orders, n.is_filled = false →
       countTsSide b.orders_by_id n.timestamp OrderSide.BUY = 1 ∧
       countTsSide b.orders_by_id n.timestamp OrderSide.SELL = 0) →
    filledSum OrderSide.BUY (matchSellLoop fuel j agg b).book.orders_by_id =
      filledSum OrderSide.BUY b.orders_by_id +
        tradeVolume (matchSellLoop fuel j agg b).trades ∧
    filledSum OrderSide.SELL (matchSellLoop fuel j agg b).book.orders_by_id =
      filledSum OrderSide.SELL b.orders_by_id +
        tradeVolume (matchSellLoop fuel j agg b).trades := by
  intro fuel
  induction fuel with
  | zero =>
    intro j agg b _ _ _ _
    exact ⟨sums_exit _ _, sums_exit _ _⟩
  | succ n ih =>
    intro j agg b hall hA hB hS
    rw [matchSellLoop]
    split
    · exact ⟨sums_exit _ _, sums_exit _ _⟩
    · next hf =>
      split
      · next hs => exact ⟨sums_exit _ _, sums_exit _ _⟩
      · next top rest hs =>
        split
        · next hp =>
          split
          · next hg =>
            refine ih j agg { b with buy_orders := rest } hall hA hB ?_
            intro m hm hmf
            exact hS m (by rw [hs]; exact List.mem_cons_of_mem _ hm) hmf
          · next hg =>
            have hf0 : agg.is_filled = false := by
              cases h : agg.is_filled
              · rfl
              · exact absurd h hf
            have hg0 : top.is_filled = false := by
              cases h : top.is_filled
              · rfl
              · exact absurd h hg
            have hq : 0 ≤ min agg.remaining_quantity top.remaining_quantity :=
              le_of_lt (trade_quantity_pos hf0 hg0)
            have htopmem : top ∈ b.buy_orders := by
              rw [hs]; exact List.mem_cons_self _ _
            obtain ⟨hTB, hTS⟩ := hS top htopmem hg0
            set q := min agg.remaining_quantity top.remaining_quantity with hqdef
            set td := execute_trade j top agg q top.price with htd
            set sell2 := addFill q agg with hsell2
            set b2 := bookUpdTs top.timestamp (addFill q)
              (bookUpdTs agg.timestamp (addFill q) b) with hb2
            set b3 := if (addFill q top).is_filled
              then { b2 with buy_orders := b2.buy_orders.tail } else b2 with hb3
            obtain ⟨htd1, hall2⟩ := @execute_trade_all_true j top agg q top.price hall
            have hdict : b3.orders_by_id =
                ((b.orders_by_id.map
                  (fun p => (p.1, updTs agg.timestamp (addFill q) p.2))).map
                  (fun p => (p.1, updTs top.timestamp (addFill q) p.2))) := by
              rw [hb3]
              by_cases hpop : (addFill q top).is_filled <;>
                simp [hpop, hb2, bookUpdTs]
            have hA2 : countTsSide b3.orders_by_id sell2.timestamp OrderSide.SELL = 1 := by
              show countTsSide b3.orders_by_id agg.timestamp OrderSide.SELL = 1
              rw [hdict]
              simp only [countTsSide_mapUpd]
              exact hA
            have hB2 : countTsSide b3.orders_by_id sell2.timestamp OrderSide.BUY = 0 := by
              show countTsSide b3.orders_by_id agg.timestamp OrderSide.BUY = 0
              rw [hdict]
              simp only [countTsSide_mapUpd]
              exact hB
            have hS2 : ∀ m ∈ b3.buy_orders, m.is_filled = false →
                countTsSide b3.orders_by_id m.timestamp OrderSide.BUY = 1 ∧
                countTsSide b3.orders_by_id m.timestamp OrderSide.SELL = 0 := by
              intro m hm hmf
              have hmb2 : m ∈ b2.buy_orders := by
                rw [hb3] at hm
                by_cases hpop : (addFill q top).is_filled
                · simp only [hpop, if_true] at hm
                  exact List.tail_subset _ hm
                · simp only [hpop, Bool.false_eq_true, if_false] at hm
                  exact hm
              rw [hb2] at hmb2
              simp only [bookUpdTs] at hmb2
              obtain ⟨m1, hm1, he1⟩ := exists_evolves_of_mem_map_updTs hq hmb2
              obtain ⟨m0, hm0, he0⟩ := exists_evolves_of_mem_map_updTs hq hm1
              have hev : Evolves m0 m := he0.trans he1
              have hm0f : m0.is_filled = false := hev.not_filled hmf
              have htseq : m0.timestamp = m.timestamp := hev.2.2.2.2.2.1
              rw [hdict]
              simp only [countTsSide_mapUpd]
              rw [← htseq]
              exact hS m0 hm0 hm0f
            obtain ⟨k1, k2⟩ := ih td.2 sell2 b3 hall2 hA2 hB2 hS2
            have hd1 : filledSum OrderSide.BUY b3.orders_by_id =
                filledSum OrderSide.BUY b.orders_by_id + q := by
              rw [hdict]
              rw [filledSum_mapUpd_one _ _ _ _ (by rw [countTsSide_mapUpd]; exact hTB)]
              rw [filledSum_mapUpd_zero _ _ _ _ hB]
            have hd2 : filledSum OrderSide.SELL b3.orders_by_id =
                filledSum OrderSide.SELL b.orders_by_id + q := by
              rw [hdict]
              rw [filledSum_mapUpd_zero _ _ _ _ (by rw [countTsSide_mapUpd]; exact hTS)]
              exact filledSum_mapUpd_one _ _ _ _ hA
            constructor
            · show filledSum OrderSide.BUY (matchSellLoop n td.2 sell2 b3).book.orders_by_id =
                filledSum OrderSide.BUY b.orders_by_id +
                  tradeVolume (match td.1 with
                    | some t => t :: (matchSellLoop n td.2 sell2 b3).trades
                    | none => (matchSellLoop n td.2 sell2 b3).trades)
              rw [htd1, k1, hd1, tradeVolume_cons, trade_mk_quantity]
              omega
            · show filledSum OrderSide.SELL (matchSellLoop n td.2 sell2 b3).book.orders_by_id =
                filledSum OrderSide.SELL b.orders_by_id +
                  tradeVolume (match td.1 with
                    | some t => t :: (matchSellLoop n td.2 sell2 b3).trades
                    | none => (matchSellLoop n td.2 sell2 b3).trades)
              rw [htd1, k2, hd2, tradeVolume_cons, trade_mk_quantity]
              omega
        · next hp => exact ⟨sums_exit _ _, sums_exit _ _⟩

/-- Invariant of submit-only runs at acceptance clock `c`: no id-index
entry carries a timestamp `≥ c`, and every unfilled heap node is
indexed exactly once, on its own side, at its timestamp. -/
def SubmitInv (b : OrderBook) (c : Nat) : Prop :=
  (∀ ts, c ≤ ts → ∀ sd, countTsSide b.orders_by_id ts sd = 0) ∧
  (∀ n ∈ b.buy_orders, n.is_filled = false →
     countTsSide b.orders_by_id n.timestamp OrderSide.BUY = 1 ∧
     countTsSide b.orders_by_id n.timestamp OrderSide.SELL = 0) ∧
  (∀ n ∈ b.sell_orders, n.is_filled = false →
     countTsSide b.orders_by_id n.timestamp OrderSide.SELL = 1 ∧
     countTsSide b.orders_by_id n.timestamp OrderSide.BUY = 0)

lemma tradeVolume_append (a b : List Trade) :
    tradeVolume (a ++ b) = tradeVolume a + tradeVolume b := by
  simp [tradeVolume]

/-- One submit with a healthy journal grows both side sums by exactly
the executed volume of its trades, and advances the invariant with
the clock. -/
lemma submit_sums_step (b : OrderBook) (c : Nat) (oid uid sym : String)
    (sd : OrderSide) (qty pr : Int) (hinv : SubmitInv b c) :
    filledSum OrderSide.BUY
        (submit_order [] b c oid uid sym sd qty pr).book.orders_by_id =
      filledSum OrderSide.BUY b.orders_by_id +
        tradeVolume (submit_order [] b c oid uid sym sd qty pr).trades ∧
    filledSum OrderSide.SELL
        (submit_order [] b c oid uid sym sd qty pr).book.orders_by_id =
      filledSum OrderSide.SELL b.orders_by_id +
        tradeVolume (submit_order [] b c oid uid sym sd qty pr).trades ∧
    SubmitInv (submit_order [] b c oid uid sym sd qty pr).book (c + 1) := by
  obtain ⟨hub, hBm, hSm⟩ := hinv
  cases hl : dictLookup b.orders_by_id oid with
  | some o =>
    have hbook : (submit_order [] b c oid uid sym sd qty pr).book = b := by
      simp [submit_order, OrderBook.add_order, hl]
    have htr : (submit_order [] b c oid uid sym sd qty pr).trades = [] := by
      simp [submit_order, OrderBook.add_order, hl]
    rw [hbook, htr]
    refine ⟨by simp [tradeVolume], by simp [tradeVolume], ?_, hBm, hSm⟩
    intro ts hts s
    exact hub ts (by omega) s
  | none =>
    cases sd with
    | BUY =>
      set nd : OrderNode :=
        { order_id := oid, user_id := uid, symbol := sym, side := OrderSide.BUY,
          quantity := qty, price := pr, timestamp := c, filled_quantity := 0 } with hnd
      set ab2 : OrderBook :=
        { b with
          orders_by_id := dictSet b.orders_by_id oid nd
          buy_orders := heappushBuy b.buy_orders nd } with hab2
      have hndts : nd.timestamp = c := rfl
      have hndside : nd.side = OrderSide.BUY := rfl
      have hdict2 : ab2.orders_by_id = b.orders_by_id ++ [(oid, nd)] := by
        rw [hab2]
        exact dictSet_not_mem b.orders_by_id oid nd hl
      have hcnt : ∀ ts s, countTsSide ab2.orders_by_id ts s =
          countTsSide b.orders_by_id ts s +
            (if nd.timestamp = ts ∧ nd.side = s then 1 else 0) := by
        intro ts s
        rw [hdict2, countTsSide_append, countTsSide_cons]
        rfl
      have hfs2 : ∀ s, filledSum s ab2.orders_by_id = filledSum s b.orders_by_id := by
        intro s
        rw [hdict2, filledSum_append, filledSum_cons]
        have h0 : (if ((oid, nd) : String × OrderNode).2.side = s then
            ((oid, nd) : String × OrderNode).2.filled_quantity else 0) = 0 := by
          split <;> rfl
        have h1 : filledSum s ([] : List (String × OrderNode)) = 0 := rfl
        rw [h0, h1]
        omega
      have hbook : (submit_order [] b c oid uid sym OrderSide.BUY qty pr).book =
          (match_buy_order [] nd ab2).book := by
        simp [submit_order, OrderBook.add_order, hl, match_order, hnd, hab2]
      have htr : (submit_order [] b c oid uid sym OrderSide.BUY qty pr).trades =
          (match_buy_order [] nd ab2).trades := by
        simp [submit_order, OrderBook.add_order, hl, match_order, hnd, hab2]
      have hfresh : ∀ (ts : Nat) (s : OrderSide),
          countTsSide b.orders_by_id ts s = 1 → ¬ nd.timestamp = ts := by
        intro ts s h1 he
        rw [hndts] at he
        rw [← he, hub c (le_refl c) s] at h1
        exact absurd h1 (by decide)
      have hnotS : ∀ x : Nat, ¬ (nd.timestamp = x ∧ nd.side = OrderSide.SELL) := by
        intro x hx
        rw [hndside] at hx
        exact absurd hx.2 (by decide)
      have hA : countTsSide ab2.orders_by_id nd.timestamp OrderSide.BUY = 1 := by
        rw [hcnt, hndts, hub c (le_refl c) OrderSide.BUY, if_pos ⟨rfl, hndside⟩]
      have hB : countTsSide ab2.orders_by_id nd.timestamp OrderSide.SELL = 0 := by
        rw [hcnt, if_neg (hnotS nd.timestamp), hndts, hub c (le_refl c) OrderSide.SELL]
      have hsell2 : ab2.sell_orders = b.sell_orders := rfl
      have hS : ∀ n ∈ ab2.sell_orders, n.is_filled = false →
          countTsSide ab2.orders_by_id n.timestamp OrderSide.SELL = 1 ∧
          countTsSide ab2.orders_by_id n.timestamp OrderSide.BUY = 0 := by
        intro n hn hnf
        rw [hsell2] at hn
        obtain ⟨hS1, hS0⟩ := hSm n hn hnf
        have hne : ¬ nd.timestamp = n.timestamp := hfresh n.timestamp OrderSide.SELL hS1
        constructor
        · rw [hcnt, hS1, if_neg (hnotS n.timestamp)]
        · rw [hcnt, hS0, if_neg (fun hx => hne hx.1)]
      have hall : ∀ x ∈ ([] : List Bool), x = true := by
        intro x hx
        exact absurd hx (List.not_mem_nil x)
      obtain ⟨hk1, hk2⟩ :=
        matchBuyLoop_sums (ab2.sell_orders.length + 2) [] nd ab2 hall hA hB hS
      have hunf : match_buy_order [] nd ab2 =
          matchBuyLoop (ab2.sell_orders.length + 2) [] nd ab2 := rfl
      refine ⟨?_, ?_, ?_, ?_, ?_⟩
      · rw [hbook, htr, hunf, hk1, hfs2]
      · rw [hbook, htr, hunf, hk2, hfs2]
      · intro ts hts s
        have hne : ¬ (nd.timestamp = ts ∧ nd.side = s) := by
          rintro ⟨he, -⟩
          rw [hndts] at he
          omega
        rw [hbook, hunf, matchBuyLoop_counts, hcnt, hub ts (by omega) s, if_neg hne]
      · intro n hn hnf
        rw [hbook, hunf] at hn
        obtain ⟨m, hm, hev⟩ :=
          (matchBuyLoop_spec (ab2.sell_orders.length + 2) [] nd ab2).2.2.2.1 n hn
        have hmf : m.is_filled = false := hev.not_filled hnf
        have htse : m.timestamp = n.timestamp := hev.2.2.2.2.2.1
        rw [hbook, hunf]
        rcases (List.mem_orderedInsert buyLE).mp hm with rfl | hm2
        · constructor
          · rw [matchBuyLoop_counts, hcnt, ← htse, hndts,
              hub c (le_refl c) OrderSide.BUY, if_pos ⟨rfl, hndside⟩]
          · rw [matchBuyLoop_counts, hcnt, ← htse, hndts,
              hub c (le_refl c) OrderSide.SELL,
              if_neg (fun hx => absurd (hndside.symm.trans hx.2) (by decide))]
        · obtain ⟨h1, h0⟩ := hBm m hm2 hmf
          rw [htse] at h1 h0
          have hne : ¬ nd.timestamp = n.timestamp :=
            hfresh n.timestamp OrderSide.BUY h1
          constructor
          · rw [matchBuyLoop_counts, hcnt, h1, if_neg (fun hx => hne hx.1)]
          · rw [matchBuyLoop_counts, hcnt, h0, if_neg (hnotS n.timestamp)]
      · intro n hn hnf
        rw [hbook, hunf] at hn
        obtain ⟨m, hm, hev⟩ :=
          (matchBuyLoop_spec (ab2.sell_orders.length + 2) [] nd ab2).2.2.1 n hn
        have hmf : m.is_filled = false := hev.not_filled hnf
        have htse : m.timestamp = n.timestamp := hev.2.2.2.2.2.1
        rw [hsell2] at hm
        obtain ⟨h1, h0⟩ := hSm m hm hmf
        rw [htse] at h1 h0
        have hne : ¬ nd.timestamp = n.timestamp :=
          hfresh n.timestamp OrderSide.SELL h1
        rw [hbook, hunf]
        constructor
        · rw [matchBuyLoop_counts, hcnt, h1, if_neg (hnotS n.timestamp)]
        · rw [matchBuyLoop_counts, hcnt, h0, if_neg (fun hx => hne hx.1)]
    | SELL =>
      set nd : OrderNode :=
        { order_id := oid, user_id := uid, symbol := sym, side := OrderSide.SELL,
          quantity := qty, price := pr, timestamp := c, filled_quantity := 0 } with hnd
      set ab2 : OrderBook :=
        { b with
          orders_by_id := dictSet b.orders_by_id oid nd
          sell_orders := heappushSell b.sell_orders nd } with hab2
      have hndts : nd.timestamp = c := rfl
      have hndside : nd.side = OrderSide.SELL := rfl
      have hdict2 : ab2.orders_by_id = b.orders_by_id ++ [(oid, nd)] := by
        rw [hab2]
        exact dictSet_not_mem b.orders_by_id oid nd hl
      have hcnt : ∀ ts s, countTsSide ab2.orders_by_id ts s =
          countTsSide b.orders_by_id ts s +
            (if nd.timestamp = ts ∧ nd.side = s then 1 else 0) := by
        intro ts s
        rw [hdict2, countTsSide_append, countTsSide_cons]
        rfl
      have hfs2 : ∀ s, filledSum s ab2.orders_by_id = filledSum s b.orders_by_id := by
        intro s
        rw [hdict2, filledSum_append, filledSum_cons]
        have h0 : (if ((oid, nd) : String × OrderNode).2.side = s then
            ((oid, nd) : String × OrderNode).2.filled_quantity else 0) = 0 := by
          split <;> rfl
        have h1 : filledSum s ([] : List (String × OrderNode)) = 0 := rfl
        rw [h0, h1]
        omega
      have hbook : (submit_order [] b c oid uid sym OrderSide.SELL qty pr).book =
          (match_sell_order [] nd ab2).book := by
        simp [submit_order, OrderBook.add_order, hl, match_order, hnd, hab2]
      have htr : (submit_order [] b c oid uid sym OrderSide.SELL qty pr).trades =
          (match_sell_order [] nd ab2).trades := by
        simp [submit_order, OrderBook.add_order, hl, match_order, hnd, hab2]
      have hfresh : ∀ (ts : Nat) (s : OrderSide),
          countTsSide b.orders_by_id ts s = 1 → ¬ nd.timestamp = ts := by
        intro ts s h1 he
        rw [hndts] at he
        rw [← he, hub c (le_refl c) s] at h1
        exact absurd h1 (by decide)
      have hnotB : ∀ x : Nat, ¬ (nd.timestamp = x ∧ nd.side = OrderSide.BUY) := by
        intro x hx
        rw [hndside] at hx
        exact absurd hx.2 (by decide)
      have hA : countTsSide ab2.orders_by_id nd.timestamp OrderSide.SELL = 1 := by
        rw [hcnt, hndts, hub c (le_refl c) OrderSide.SELL, if_pos ⟨rfl, hndside⟩]
      have hB : countTsSide ab2.orders_by_id nd.timestamp OrderSide.BUY = 0 := by
        rw [hcnt, if_neg (hnotB nd.timestamp), hndts, hub c (le_refl c) OrderSide.BUY]
      have hbuy2 : ab2.buy_orders = b.buy_orders := rfl
      have hS : ∀ n ∈ ab2.buy_orders, n.is_filled = false →
          countTsSide ab2.orders_by_id n.timestamp OrderSide.BUY = 1 ∧
          countTsSide ab2.orders_by_id n.timestamp OrderSide.SELL = 0 := by
        intro n hn hnf
        rw [hbuy2] at hn
        obtain ⟨hS1, hS0⟩ := hBm n hn hnf
        have hne : ¬ nd.timestamp = n.timestamp := hfresh n.timestamp OrderSide.BUY hS1
        constructor
        · rw [hcnt, hS1, if_neg (hnotB n.timestamp)]
        · rw [hcnt, hS0, if_neg (fun hx => hne hx.1)]
      have hall : ∀ x ∈ ([] : List Bool), x = true := by
        intro x hx
        exact absurd hx (List.not_mem_nil x)
      obtain ⟨hk1, hk2⟩ :=
        matchSellLoop_sums (ab2.buy_orders.length + 2) [] nd ab2 hall hA hB hS
      have hunf : match_sell_order [] nd ab2 =
          matchSellLoop (ab2.buy_orders.length + 2) [] nd ab2 := rfl
      refine ⟨?_, ?_, ?_, ?_, ?_⟩
      · rw [hbook, htr, hunf, hk1, hfs2]
      · rw [hbook, htr, hunf, hk2, hfs2]
      · intro ts hts s
        have hne : ¬ (nd.timestamp = ts ∧ nd.side = s) := by
          rintro ⟨he, -⟩
          rw [hndts] at he
          omega
        rw [hbook, hunf, matchSellLoop_counts, hcnt, hub ts (by omega) s, if_neg hne]
      · intro n hn hnf
        rw [hbook, hunf] at hn
        obtain ⟨m, hm, hev⟩ :=
          (matchSellLoop_spec (ab2.buy_orders.length + 2) [] nd ab2).2.2.1 n hn
        have hmf : m.is_filled = false := hev.not_filled hnf
        have htse : m.timestamp = n.timestamp := hev.2.2.2.2.2.1
        rw [hbuy2] at hm
        obtain ⟨h1, h0⟩ := hBm m hm hmf
        rw [htse] at h1 h0
        have hne : ¬ nd.timestamp = n.timestamp :=
          hfresh n.timestamp OrderSide.BUY h1
        rw [hbook, hunf]
        constructor
        · rw [matchSellLoop_counts, hcnt, h1, if_neg (hnotB n.timestamp)]
        · rw [matchSellLoop_counts, hcnt, h0, if_neg (fun hx => hne hx.1)]
      · intro n hn hnf
        rw [hbook, hunf] at hn
        obtain ⟨m, hm, hev⟩ :=
          (matchSellLoop_spec (ab2.buy_orders.length + 2) [] nd ab2).2.2.2.1 n hn
        have hmf : m.is_filled = false := hev.not_filled hnf
        have htse : m.timestamp = n.timestamp := hev.2.2.2.2.2.1
        rw [hbook, hunf]
        rcases (List.mem_orderedInsert sellLE).mp hm with rfl | hm2
        · constructor
          · rw [matchSellLoop_counts, hcnt, ← htse, hndts,
              hub c (le_refl c) OrderSide.SELL, if_pos ⟨rfl, hndside⟩]
          · rw [matchSellLoop_counts, hcnt, ← htse, hndts,
              hub c (le_refl c) OrderSide.BUY,
              if_neg (fun hx => absurd (hndside.symm.trans hx.2) (by decide))]
        · obtain ⟨h1, h0⟩ := hSm m hm2 hmf
          rw [htse] at h1 h0
          have hne : ¬ nd.timestamp = n.timestamp :=
            hfresh n.timestamp OrderSide.SELL h1
          constructor
          · rw [matchSellLoop_counts, hcnt, h1, if_neg (fun hx => hne hx.1)]
          · rw [matchSellLoop_counts, hcnt, h0, if_neg (hnotB n.timestamp)]

/-- Trace induction: under the invariant, a run of submits grows both
side sums by exactly the total executed volume. -/
lemma runSubmits_sums : ∀ (reqs : List SubmitReq) (b : OrderBook) (c : Nat),
    SubmitInv b c →
    filledSum OrderSide.BUY (runSubmits b c reqs).1.orders_by_id =
      filledSum OrderSide.BUY b.orders_by_id +
        tradeVolume (runSubmits b c reqs).2.1 ∧
    filledSum OrderSide.SELL (runSubmits b c reqs).1.orders_by_id =
      filledSum OrderSide.SELL b.orders_by_id +
        tradeVolume (runSubmits b c reqs).2.1 := by
  intro reqs
  induction reqs with
  | nil =>
    intro b c _
    constructor <;> simp [runSubmits, tradeVolume]
  | cons r rs ih =>
    intro b c hinv
    obtain ⟨h1, h2, hinv2⟩ :=
      submit_sums_step b c r.order_id r.user_id r.symbol r.side r.quantity r.price hinv
    obtain ⟨k1, k2⟩ := ih
      (submit_order [] b c r.order_id r.user_id r.symbol r.side r.quantity r.price).book
      (c + 1) hinv2
    have hfst : (runSubmits b c (r :: rs)).1 =
        (runSubmits (submit_order [] b c r.order_id r.user_id r.symbol r.side
          r.quantity r.price).book (c + 1) rs).1 := rfl
    have htr2 : (runSubmits b c (r :: rs)).2.1 =
        (submit_order [] b c r.order_id r.user_id r.symbol r.side
          r.quantity r.price).trades ++
        (runSubmits (submit_order [] b c r.order_id r.user_id r.symbol r.side
          r.quantity r.price).book (c + 1) rs).2.1 := rfl
    rw [hfst, htr2, tradeVolume_append]
    constructor
    · rw [k1, h1]
      omega
    · rw [k2, h2]
      omega

/-- **C9** (amended): conservation of quantity holds over submit-only
histories.  Starting from an empty book, after any sequence of
`submit_order` calls the sum of `filled_quantity` over the buy-side
id-index entries and the sum over the sell-side entries are each
exactly the total executed trade volume.  (`cancel_order` and
`modify_order` overwrite `filled_quantity` and break the equation —
see the separate counterexample.) -/
theorem c9_submit_only_conservation (sym : String) (reqs : List SubmitReq) :
    filledSum OrderSide.BUY (runSubmits (emptyBook sym) 0 reqs).1.orders_by_id =
      tradeVolume (runSubmits (emptyBook sym) 0 reqs).2.1 ∧
    filledSum OrderSide.SELL (runSubmits (emptyBook sym) 0 reqs).1.orders_by_id =
      tradeVolume (runSubmits (emptyBook sym) 0 reqs).2.1 := by
  have hinv : SubmitInv (emptyBook sym) 0 := by
    refine ⟨?_, ?_, ?_⟩
    · intro ts _ s
      rfl
    · intro n hn
      exact absurd hn (List.not_mem_nil n)
    · intro n hn
      exact absurd hn (List.not_mem_nil n)
  obtain ⟨h1, h2⟩ := runSubmits_sums reqs (emptyBook sym) 0 hinv
  have hz : ∀ s, filledSum s (emptyBook sym).orders_by_id = 0 := fun s => rfl
  constructor
  · rw [h1, hz]
    omega
  · rw [h2, hz]
    omega
